import Mathlib

/-
Verification of the core MCTS engine of this repository
(open_spiel/algorithms/mcts.cc).

The embedding below is a shallow model of mcts.cc.  C++ doubles are
modelled as real numbers, players and actions (Player, Action) as
integers, and std::vector as List.  The Game/State and Evaluator
interfaces (external collaborators, declared in headers that are not
part of the core source) are modelled as structures of functions; the
bot's RNG is modelled as an oracle supplying the shuffle permutations
and the uniform draws that the search consumes, in consumption order.
Undefined behaviour of the C++ (out-of-range vector reads followed by a
null-pointer dereference, std::max_element on an empty range) is
modelled by Option, with none for the crashing executions.
The memory cap is modelled in its default-disabled configuration
(max_memory = 0), in which the cap test `max_memory_ && ...` is never
true.
-/

open scoped Classical

noncomputable section

namespace Mcts

/-- Modelled from the spec: the chance-player sentinel (kChancePlayerId in
the open_spiel core headers, which are outside the core source): a
distinguished player identifier that tags chance nodes.  -/
def kChancePlayerId : ℤ := -1

/-- Reading a per-player value vector at a player index, as the C++
`vec[player]` does with a vector of doubles.  Out-of-range reads are
undefined behaviour in the source; they return a junk value 0 here and
every theorem below only relies on in-range reads.  -/
def vecAt (l : List ℝ) (i : ℤ) : ℝ :=
  if h : 0 ≤ i ∧ i.toNat < l.length then l.get ⟨i.toNat, h.2⟩ else 0

/-- Modelled from the spec: the SearchNode record of mcts.h (declaration
outside the core source; its fields and initial values are fixed by spec
section 3 and by every use in mcts.cc): action taken from the parent,
player to move at the parent, prior, visit count, accumulated reward,
optional proven outcome (empty list = unproven), and the ordered
children, empty until expansion.  -/
inductive SearchNode : Type where
  | mk : ℤ → ℤ → ℝ → ℕ → ℝ → List ℝ → List SearchNode → SearchNode

def SearchNode.action : SearchNode → ℤ
  | .mk a _ _ _ _ _ _ => a

def SearchNode.player : SearchNode → ℤ
  | .mk _ p _ _ _ _ _ => p

def SearchNode.prior : SearchNode → ℝ
  | .mk _ _ pr _ _ _ _ => pr

def SearchNode.explore_count : SearchNode → ℕ
  | .mk _ _ _ ec _ _ _ => ec

def SearchNode.total_reward : SearchNode → ℝ
  | .mk _ _ _ _ tr _ _ => tr

def SearchNode.outcome : SearchNode → List ℝ
  | .mk _ _ _ _ _ oc _ => oc

def SearchNode.children : SearchNode → List SearchNode
  | .mk _ _ _ _ _ _ ch => ch

/-- Replacing the children list of a node (the expansion write at
mcts.cc lines 224-227).  -/
def SearchNode.setChildren : SearchNode → List SearchNode → SearchNode
  | .mk a p pr ec tr oc _, ch => .mk a p pr ec tr oc ch

/-- Replacing the outcome vector of a node (the writes at mcts.cc lines
286, 313 and 333).  -/
def SearchNode.setOutcome : SearchNode → List ℝ → SearchNode
  | .mk a p pr ec tr _ ch, oc => .mk a p pr ec tr oc ch

/-- Replacing one child of a node in place, as the backup walk's pointer
mutation does.  -/
def SearchNode.setChildAt (n : SearchNode) (i : ℕ) (c : SearchNode) : SearchNode :=
  n.setChildren (n.children.set i c)

/-- The statistics update of the backup walk (mcts.cc lines 298-299):
total_reward += returns[player]; explore_count += 1.  -/
def statsBump (rets : List ℝ) : SearchNode → SearchNode
  | .mk a p pr ec tr oc ch => .mk a p pr (ec + 1) (tr + vecAt rets p) oc ch

/-- SearchNode::Value (mcts.cc lines 91-100): the PUCT score.  A proven
node returns outcome[player]; otherwise mean reward (0 when unvisited)
plus the exploration term.  -/
def SearchNode.Value (n : SearchNode) (parent_explore_count : ℕ) (uct_c : ℝ) : ℝ :=
  if n.outcome ≠ [] then vecAt n.outcome n.player
  else
    (if n.explore_count ≠ 0 then n.total_reward / (n.explore_count : ℝ) else 0) +
      uct_c * n.prior * Real.sqrt (parent_explore_count : ℝ) / ((n.explore_count : ℝ) + 1)

/-- The pseudo-outcome used by SearchNode::CompareFinal (mcts.cc line
103): 0 for an unproven node, outcome[player] otherwise.  -/
def finalOut (n : SearchNode) : ℝ :=
  if n.outcome = [] then 0 else vecAt n.outcome n.player

/-- SearchNode::CompareFinal (mcts.cc lines 102-112): the strict
"less-than" used to pick the best child, lexicographic and ascending on
(pseudo-outcome, explore_count, total_reward).  -/
def SearchNode.CompareFinal (a b : SearchNode) : Prop :=
  if finalOut a ≠ finalOut b then finalOut a < finalOut b
  else if a.explore_count ≠ b.explore_count then a.explore_count < b.explore_count
  else a.total_reward < b.total_reward

/-- The fold performed by std::max_element with CompareFinal: the running
best is replaced exactly when it compares strictly below the candidate,
so the first maximal element wins.  -/
def maxElem : SearchNode → List SearchNode → SearchNode
  | b, [] => b
  | b, x :: xs => maxElem (if b.CompareFinal x then x else b) xs

/-- SearchNode::BestChild (mcts.cc lines 114-130).  std::max_element on
an empty range returns the end iterator, which the source immediately
dereferences (undefined behaviour); that case is none here.  -/
def SearchNode.BestChild (n : SearchNode) : Option SearchNode :=
  match n.children with
  | [] => none
  | c :: cs => some (maxElem c cs)

/-- The Game/State interface consumed by the bot (external collaborator;
spec section 6), as one bundle of functions over an abstract state type.
The passed-in state is never mutated, so applyAction returns the
advanced state of a clone.  -/
structure GameM (σ : Type) where
  isTerminal : σ → Bool
  isChanceNode : σ → Bool
  currentPlayer : σ → ℤ
  chanceOutcomes : σ → List (ℤ × ℝ)
  applyAction : σ → ℤ → σ
  returns : σ → List ℝ
  maxUtility : ℝ

/-- The Evaluator interface (spec section 4.1).  Prior is the
distribution over the state's moves; evaluate is the per-player value
estimate for a non-terminal state, indexed by the simulation that calls
it (a stateful evaluator may answer differently on each call).  -/
structure EvalM (σ : Type) where
  Prior : σ → List (ℤ × ℝ)
  evaluate : ℕ → σ → List ℝ

/-- The bot RNG, as an oracle over an abstract time counter that
advances once per RNG consumption: shuffle t is the permutation
std::shuffle applies to the prior at time t, draw t the uniform [0,1)
draw of std::uniform_real_distribution at time t.  -/
structure OracleM where
  shuffle : ℕ → List (ℤ × ℝ) → List (ℤ × ℝ)
  draw : ℕ → ℝ

/-- The bot configuration fields used by the search (mcts.cc lines
160-184): uct_c_, max_simulations_, solve_.  max_utility_ is
game.MaxUtility() and lives in GameM; max_memory_ is modelled as 0
(cap disabled); verbose_ only prints.  -/
structure MCTSBot where
  uct_c : ℝ
  max_simulations : ℕ
  solve : Bool

/-- The linear CDF scan of the chance branch (mcts.cc lines 238-241):
int index = 0; for (double sum = 0; sum < rand; ++index) sum +=
outcomes[index].second;.  The accumulator walks the list; if the sum is
still below the draw after the whole list was consumed, the next
iteration of the C++ loop reads past the end (none here).  -/
def cdfScan (r : ℝ) : ℝ → ℕ → List (ℤ × ℝ) → Option ℕ
  | sum, idx, [] => if sum < r then none else some idx
  | sum, idx, ap :: rest => if sum < r then cdfScan r (sum + ap.2) (idx + 1) rest else some idx

/-- The chance-outcome pick of mcts.cc lines 237-242: run the CDF scan,
then read outcomes[index].first.  The final read is itself out of range
(none) whenever the scan stopped at the list's length.  -/
def sampleChanceAction (outcomes : List (ℤ × ℝ)) (r : ℝ) : Option ℤ :=
  match cdfScan r 0 0 outcomes with
  | none => none
  | some idx =>
    match outcomes.get? idx with
    | none => none
    | some ap => some ap.1

/-- The child lookup of the chance branch (mcts.cc lines 244-249): the
first child whose action equals the sampled outcome; chosen_child stays
null (none) when no child matches.  -/
def findChildIdx (a : ℤ) : ℕ → List SearchNode → Option ℕ
  | _, [] => none
  | i, c :: cs => if c.action = a then some i else findChildIdx a (i + 1) cs

/-- The decision-node selection loop (mcts.cc lines 251-259): running
(index, value) best, replaced on strictly greater Value.  The C++ seeds
max_value with -infinity, which every real value beats, so the none seed
is equivalent.  -/
def selectFrom (pc : ℕ) (u : ℝ) : ℕ → Option (ℕ × ℝ) → List SearchNode → Option (ℕ × ℝ)
  | _, acc, [] => acc
  | i, acc, c :: cs =>
    match acc with
    | none => selectFrom pc u (i + 1) (some (i, c.Value pc u)) cs
    | some (bi, bv) =>
      selectFrom pc u (i + 1) (if c.Value pc u > bv then some (i, c.Value pc u) else some (bi, bv)) cs

/-- Index of the child with largest UCT Value, first occurrence on ties;
none for an empty children list (chosen_child stays null).  -/
def selectIdx (pc : ℕ) (u : ℝ) (l : List SearchNode) : Option ℕ :=
  (selectFrom pc u 0 none l).map Prod.fst

/-- One child choice of the tree-policy loop body (mcts.cc lines
231-260): chance nodes sample an outcome with one uniform draw and match
it against the children's actions; decision nodes take the child of
largest Value.  Returns the child index and the advanced RNG time; none
models the null chosen_child dereference and the out-of-range read.  -/
def chooseChild {σ : Type} (G : GameM σ) (O : OracleM) (u : ℝ) (n : SearchNode) (s : σ)
    (t : ℕ) : Option (ℕ × ℕ) :=
  if G.isChanceNode s = true then
    match sampleChanceAction (G.chanceOutcomes s) (O.draw t) with
    | none => none
    | some a =>
      match findChildIdx a 0 n.children with
      | none => none
      | some j => some (j, t + 1)
  else
    match selectIdx n.explore_count u n.children with
    | none => none
    | some j => some (j, t)

/-- The children created at expansion (mcts.cc lines 223-227): one child
per (action, prior) pair of the shuffled prior, carrying the current
player of the expanded state, with fresh statistics.  -/
def expandKids (l : List (ℤ × ℝ)) (pl : ℤ) : List SearchNode :=
  l.map (fun ap => SearchNode.mk ap.1 pl ap.2 0 0 [] [])

/-- MCTSBot::ApplyTreePolicy (mcts.cc lines 211-268) as a recursion over
the tree: stop at a terminal working state or an unvisited node; expand
a visited node with no children (after which the chosen fresh child has
explore_count 0, so the loop stops right below it); otherwise choose a
child, apply its action and continue below it.  Returns the visit path
as child indices from the root (the root itself is the empty prefix),
the updated tree, the frontier working state and the advanced RNG
time.  -/
def ApplyTreePolicy {σ : Type} (G : GameM σ) (E : EvalM σ) (O : OracleM) (u : ℝ) :
    SearchNode → σ → ℕ → Option (List ℕ × SearchNode × σ × ℕ)
  | n, s, t =>
    if G.isTerminal s = true ∨ n.explore_count = 0 then some ([], n, s, t)
    else
      match n.children with
      | [] =>
        let kids := expandKids (O.shuffle t (E.Prior s)) (G.currentPlayer s)
        let n1 := n.setChildren kids
        match chooseChild G O u n1 s (t + 1) with
        | none => none
        | some (i, t1) =>
          match n1.children.get? i with
          | none => none
          | some c => some ([i], n1, G.applyAction s c.action, t1)
      | _ :: _ =>
        match chooseChild G O u n s t with
        | none => none
        | some (i, t1) =>
          if h : i < n.children.length then
            match ApplyTreePolicy G E O u (n.children.get ⟨i, h⟩)
                (G.applyAction s (n.children.get ⟨i, h⟩).action) t1 with
            | none => none
            | some (p, c2, s2, t2) => some (i :: p, n.setChildAt i c2, s2, t2)
          else none
  termination_by n _ _ => sizeOf n
  decreasing_by
    have h1 : sizeOf (n.children.get ⟨i, h⟩) < sizeOf n.children :=
      List.sizeOf_lt_of_mem (List.get_mem n.children i h)
    cases n with
    | mk a p pr ec tr oc ch => simp [SearchNode.children] at h1 ⊢; omega

/-- The decision-node solver scan (mcts.cc lines 321-330): walk the
children tracking whether all are solved and the first solved child
whose outcome[player] strictly exceeds the running best's.  -/
def solverScan (p : ℤ) : List SearchNode → Option SearchNode → Bool → Option SearchNode × Bool
  | [], best, allS => (best, allS)
  | c :: cs, best, allS =>
    if c.outcome = [] then solverScan p cs best false
    else
      match best with
      | none => solverScan p cs (some c) allS
      | some b =>
        if vecAt c.outcome p > vecAt b.outcome p then solverScan p cs (some c) allS
        else solverScan p cs (some b) allS

/-- One node of the backup walk (mcts.cc lines 295-339): bump the
statistics, then, when the pass is still solved and the node has
children, attempt to prove the node: a chance node (first child carries
the chance sentinel) is proven when all children share one non-empty
outcome; a decision node when some child is solved and either all are or
the best solved child's outcome[player] reaches the game's maximum
utility.  A failed attempt clears the solved flag for the ancestors.  -/
def backupNode (maxU : ℝ) (rets : List ℝ) (solved : Bool) (n : SearchNode) :
    SearchNode × Bool :=
  let n1 := statsBump rets n
  if solved = true then
    match n1.children with
    | [] => (n1, true)
    | c0 :: cs =>
      if c0.player = kChancePlayerId then
        if c0.outcome ≠ [] ∧ ∀ c ∈ cs, c.outcome = c0.outcome then
          (n1.setOutcome c0.outcome, true)
        else (n1, false)
      else
        match solverScan c0.player n1.children none true with
        | (some b, allS) =>
          if allS = true ∨ vecAt b.outcome c0.player = maxU then
            (n1.setOutcome b.outcome, true)
          else (n1, false)
        | (none, _) => (n1, false)
  else (n1, false)

/-- The backup walk over one visit path (mcts.cc lines 283-340),
recursing from the root: the node below is backed up first (the C++
walks the path in reverse), its solved flag feeds the node above.  At
the frontier (empty remaining path) the outcome is first set to the
returns when the frontier state was terminal (line 286).  A path index
outside the children (impossible for the paths the tree policy yields)
backs up the node alone with the flag cleared.  -/
def backupAlong (maxU : ℝ) (rets : List ℝ) (sv0 : Bool) (setF : Bool) :
    SearchNode → List ℕ → SearchNode × Bool
  | n, [] => backupNode maxU rets sv0 (if setF then n.setOutcome rets else n)
  | n, i :: p =>
    match n.children.get? i with
    | none => backupNode maxU rets false n
    | some c =>
      let r := backupAlong maxU rets sv0 setF c p
      backupNode maxU rets r.2 (n.setChildAt i r.1)

/-- The root created at the start of MCTSBot::MCTSearch (mcts.cc line
272): sentinel action -1, the current player of the root state, prior
1, fresh statistics.  -/
def mkRoot {σ : Type} (G : GameM σ) (s : σ) : SearchNode :=
  SearchNode.mk (-1) (G.currentPlayer s) 1 0 0 [] []

/-- One iteration of the simulation loop of MCTSBot::MCTSearch (mcts.cc
lines 276-341): run the tree policy, take the exact returns at a
terminal frontier (also writing them into the frontier's outcome and
arming the solver) or the evaluator's estimate otherwise, then back the
values up the visit path.  i is the simulation index, passed to the
evaluator oracle.  -/
def simStep {σ : Type} (G : GameM σ) (E : EvalM σ) (O : OracleM) (bot : MCTSBot)
    (s0 : σ) (root : SearchNode) (t : ℕ) (i : ℕ) : Option (SearchNode × ℕ) :=
  match ApplyTreePolicy G E O bot.uct_c root s0 t with
  | none => none
  | some (p, root1, ws, t1) =>
    let term := G.isTerminal ws
    let rets := if term = true then G.returns ws else E.evaluate i ws
    let sv : Bool := if term = true then bot.solve else false
    some ((backupAlong G.maxUtility rets sv term root1 p).1, t1)

/-- The simulation loop of MCTSBot::MCTSearch (mcts.cc lines 276-346)
with the memory cap disabled: run up to the given number of simulations,
stopping early once the root is proven.  -/
def mctsLoop {σ : Type} (G : GameM σ) (E : EvalM σ) (O : OracleM) (bot : MCTSBot)
    (s0 : σ) : ℕ → SearchNode → ℕ → ℕ → Option (SearchNode × ℕ)
  | 0, root, t, _ => some (root, t)
  | k + 1, root, t, i =>
    match simStep G E O bot s0 root t i with
    | none => none
    | some (root1, t1) =>
      if root1.outcome ≠ [] then some (root1, t1)
      else mctsLoop G E O bot s0 k root1 t1 (i + 1)

/-- MCTSBot::MCTSearch (mcts.cc lines 270-349): fresh root, then the
simulation loop.  -/
def MCTSearch {σ : Type} (G : GameM σ) (E : EvalM σ) (O : OracleM) (bot : MCTSBot)
    (s0 : σ) : Option (SearchNode × ℕ) :=
  mctsLoop G E O bot s0 bot.max_simulations (mkRoot G s0) 0 0

/-- MCTSBot::Step (mcts.cc lines 186-209): search, take the root's best
child, return the pair of the exported distribution (probability 1 on
the chosen action) and the chosen action.  -/
def Step {σ : Type} (G : GameM σ) (E : EvalM σ) (O : OracleM) (bot : MCTSBot)
    (s0 : σ) : Option (List (ℤ × ℝ) × ℤ) :=
  match MCTSearch G E O bot s0 with
  | none => none
  | some (root, _) =>
    match root.BestChild with
    | none => none
    | some b => some ([(b.action, 1)], b.action)

/-- The node of a tree at a path of child indices (the root is []).  -/
def nodeAt : SearchNode → List ℕ → Option SearchNode
  | n, [] => some n
  | n, i :: q =>
    match n.children.get? i with
    | none => none
    | some c => nodeAt c q

/-- The game state reached by replaying a path's edge actions from a
base state.  -/
def stateAt {σ : Type} (G : GameM σ) : σ → SearchNode → List ℕ → Option σ
  | s, _, [] => some s
  | s, n, i :: q =>
    match n.children.get? i with
    | none => none
    | some c => stateAt G (G.applyAction s c.action) c q

/-- q is a (not necessarily strict) ancestor path of p.  -/
def pathLe (q p : List ℕ) : Prop := p.take q.length = q

/-- The expansion invariant of one tree node at path q: an unexpanded
node has been visited at most once or replays to a terminal state; an
expanded node has been visited at least twice; a node replaying to a
terminal state is never expanded.  -/
def goodNode {σ : Type} (G : GameM σ) (s0 : σ) (root : SearchNode) (q : List ℕ)
    (x : SearchNode) : Prop :=
  (x.children = [] → x.explore_count ≤ 1 ∨
    ∃ sq, stateAt G s0 root q = some sq ∧ G.isTerminal sq = true) ∧
  (x.children ≠ [] → 2 ≤ x.explore_count) ∧
  (∀ sq, stateAt G s0 root q = some sq → G.isTerminal sq = true → x.children = [])

/-- The relaxed invariant holding between the descent and the backup of
one simulation: the node expanded during the descent (a strict ancestor
of the frontier path p, replaying to a non-terminal state) still has
explore_count 1; the backup's increment restores goodNode.  -/
def midNode {σ : Type} (G : GameM σ) (s0 : σ) (root : SearchNode) (p q : List ℕ)
    (x : SearchNode) : Prop :=
  (x.children = [] → x.explore_count ≤ 1 ∨
    ∃ sq, stateAt G s0 root q = some sq ∧ G.isTerminal sq = true) ∧
  (x.children ≠ [] → 2 ≤ x.explore_count ∨
    (x.explore_count = 1 ∧ pathLe q p ∧ q ≠ p ∧
      ∃ sq, stateAt G s0 root q = some sq ∧ G.isTerminal sq = false)) ∧
  (∀ sq, stateAt G s0 root q = some sq → G.isTerminal sq = true → x.children = [])

/-- The expansion invariant over the whole tree.  -/
def ExpansionInv {σ : Type} (G : GameM σ) (s0 : σ) (root : SearchNode) : Prop :=
  ∀ q x, nodeAt root q = some x → goodNode G s0 root q x

/-! Concrete test fixtures.  GC is a one-level chance game: state 0 is a
chance node with declared outcomes [(0, 1/2), (1, 1/2)]; action a leads
to the terminal state a + 1.  -/

def GC : GameM ℕ where
  isTerminal := fun s => decide (s ≠ 0)
  isChanceNode := fun s => decide (s = 0)
  currentPlayer := fun s => if s = 0 then -1 else 0
  chanceOutcomes := fun _ => [(0, 1/2), (1, 1/2)]
  applyAction := fun _ a => (a + 1).toNat
  returns := fun s => if s = 1 then [1, -1] else [-1, 1]
  maxUtility := 1

/-- An evaluator for GC: the prior repeats the chance distribution.  -/
def EC : EvalM ℕ where
  Prior := fun _ => [(0, 1/2), (1, 1/2)]
  evaluate := fun _ _ => [0, 0]

/-- An oracle whose first uniform draw is 1/4.  -/
def OC : OracleM where
  shuffle := fun _ l => l
  draw := fun _ => 1/4

/-- A root for GC: visited once, already expanded with one child per
declared chance outcome.  -/
def rootC : SearchNode :=
  SearchNode.mk (-1) (-1) 1 1 0 []
    [SearchNode.mk 0 (-1) (1/2) 0 0 [] [], SearchNode.mk 1 (-1) (1/2) 0 0 [] []]

/-- A one-outcome chance game: state 0 is a chance node whose single
declared outcome is (5, 1); every action leads to terminal state 1.  -/
def GC1 : GameM ℕ where
  isTerminal := fun s => decide (s ≠ 0)
  isChanceNode := fun s => decide (s = 0)
  currentPlayer := fun s => if s = 0 then -1 else 0
  chanceOutcomes := fun _ => [(5, 1)]
  applyAction := fun _ _ => 1
  returns := fun _ => [0, 0]
  maxUtility := 1

/-- An evaluator for GC1.  -/
def EC1 : EvalM ℕ where
  Prior := fun _ => [(5, 1)]
  evaluate := fun _ _ => [0, 0]

/-- An oracle whose first uniform draw is 1/2.  -/
def OC1 : OracleM where
  shuffle := fun _ l => l
  draw := fun _ => 1/2

/-- A root for GC1: visited once, expanded with the one child the
declared distribution yields.  -/
def rootC1 : SearchNode :=
  SearchNode.mk (-1) (-1) 1 1 0 [] [SearchNode.mk 5 (-1) 1 0 0 [] []]

/-! G7 is a two-player general-sum game without chance nodes.  State 0
(the root, player 1 to move) has actions 10 (to state 1) and 20 (to
state 4).  State 1 (player 0 to move) has actions 30 (to terminal state
2, returns [1, -1]) and 40 (to terminal state 3, returns [1, 0]).
State 4 is a non-terminal decoy.  MaxUtility is 1.  -/

def G7 : GameM ℕ where
  isTerminal := fun s => decide (s = 2 ∨ s = 3)
  isChanceNode := fun _ => false
  currentPlayer := fun s => if s = 0 then 1 else 0
  chanceOutcomes := fun _ => []
  applyAction := fun s a =>
    if s = 0 ∧ a = 10 then 1
    else if s = 0 ∧ a = 20 then 4
    else if s = 1 ∧ a = 30 then 2
    else if s = 1 ∧ a = 40 then 3
    else 5
  returns := fun s => if s = 2 then [1, -1] else if s = 3 then [1, 0] else [0, 0]
  maxUtility := 1

/-- An evaluator for G7: value estimate 0 for both players everywhere;
the prior at the root puts weight 1 on action 10 and 0 on action 20, at
state 1 weights 3/10 and 7/10 on actions 30 and 40.  -/
def E7 : EvalM ℕ where
  Prior := fun s =>
    if s = 0 then [(10, 1), (20, 0)]
    else if s = 1 then [(30, 3/10), (40, 7/10)]
    else [(50, 1)]
  evaluate := fun _ _ => [0, 0]

/-- An identity-shuffle oracle for G7 (the game has no chance nodes, so
no draw is ever consumed).  -/
def O7 : OracleM where
  shuffle := fun _ l => l
  draw := fun _ => 0

/-- A G7 bot with uct_c = 4, the solver on, and the given simulation
budget.  -/
def bot7 (k : ℕ) : MCTSBot where
  uct_c := 4
  max_simulations := k
  solve := true

/-! The trees the G7 search builds after each simulation, as literals:
n7rootJ is the root after simulation J.  -/

def n7root1 : SearchNode := SearchNode.mk (-1) 1 1 1 0 [] []

def n7N10a : SearchNode := SearchNode.mk 10 1 1 1 0 [] []

def n7N20 : SearchNode := SearchNode.mk 20 1 0 0 0 [] []

def n7root2 : SearchNode := SearchNode.mk (-1) 1 1 2 0 [] [n7N10a, n7N20]

def n7A0 : SearchNode := SearchNode.mk 30 0 (3/10) 0 0 [] []

def n7B0 : SearchNode := SearchNode.mk 40 0 (7/10) 0 0 [] []

def n7B1 : SearchNode := SearchNode.mk 40 0 (7/10) 1 1 [1, 0] []

def n7N10b : SearchNode := SearchNode.mk 10 1 1 2 0 [1, 0] [n7A0, n7B1]

def n7root3 : SearchNode := SearchNode.mk (-1) 1 1 3 0 [] [n7N10b, n7N20]

def n7A1 : SearchNode := SearchNode.mk 30 0 (3/10) 1 1 [1, -1] []

def n7N10c : SearchNode := SearchNode.mk 10 1 1 3 (-1) [1, -1] [n7A1, n7B1]

def n7root4 : SearchNode := SearchNode.mk (-1) 1 1 4 (-1) [] [n7N10c, n7N20]

/-! Fixtures for the C5 and C6 witnesses: a proven two-child chance node
and a decision node proven through the max-utility shortcut.  -/

def nC5c0 : SearchNode := SearchNode.mk 1 (-1) (1/2) 0 0 [1, 1] []

def nC5c1 : SearchNode := SearchNode.mk 2 (-1) (1/2) 0 0 [1, 1] []

def nC5 : SearchNode := SearchNode.mk 0 0 1 0 0 [] [nC5c0, nC5c1]

def nC6c0 : SearchNode := SearchNode.mk 1 0 (1/2) 0 0 [1, 1] []

def nC6c1 : SearchNode := SearchNode.mk 2 0 (1/2) 0 0 [] []

def nC6 : SearchNode := SearchNode.mk 0 0 1 0 0 [] [nC6c0, nC6c1]

/-! Theorems.  First the evaluation of the four G7 simulations, then the
general lemmas, then the claim theorems.  -/

theorem sqrt2ge1 : (1:ℝ) ≤ Real.sqrt 2 := by
  rw [show (1:ℝ) = Real.sqrt 1 by simp]
  exact Real.sqrt_le_sqrt (by norm_num)

set_option maxRecDepth 4000 in
theorem sim1 (k : ℕ) : simStep G7 E7 O7 (bot7 k) 0 (mkRoot G7 0) 0 0 = some (n7root1, 0) := by
  unfold simStep
  rw [ApplyTreePolicy]
  norm_num [G7, E7, mkRoot, SearchNode.explore_count, backupAlong, backupNode, statsBump, vecAt,
    n7root1, SearchNode.children, SearchNode.setOutcome, bot7]

set_option maxRecDepth 4000 in
theorem sim2 (k : ℕ) : simStep G7 E7 O7 (bot7 k) 0 n7root1 0 1 = some (n7root2, 1) := by
  unfold simStep
  rw [ApplyTreePolicy]
  norm_num [G7, E7, O7, bot7, n7root1, SearchNode.explore_count, SearchNode.children,
    SearchNode.setChildren, SearchNode.setChildAt, expandKids, chooseChild, selectIdx, selectFrom,
    SearchNode.Value, SearchNode.outcome, SearchNode.prior, SearchNode.total_reward,
    SearchNode.action, SearchNode.player, Real.sqrt_one, List.get?, backupAlong, backupNode,
    statsBump, vecAt, SearchNode.setOutcome, n7root2, n7N10a, n7N20, List.set]

set_option maxRecDepth 4000 in
theorem bk3a : backupAlong 1 [1, 0] true true (SearchNode.mk 40 0 (7/10) 0 0 [] []) [] =
    (n7B1, true) := by
  show backupAlong 1 [1, 0] true true n7B0 [] = (n7B1, true)
  norm_num [backupAlong, backupNode, statsBump, vecAt, n7B0, n7B1, SearchNode.setOutcome,
    SearchNode.children]

set_option maxRecDepth 4000 in
theorem bk3b : backupAlong 1 [1, 0] true true
    (SearchNode.mk 10 1 1 1 0 []
      [SearchNode.mk 30 0 (3/10) 0 0 [] [], SearchNode.mk 40 0 (7/10) 0 0 [] []]) [1] =
    (n7N10b, true) := by
  rw [backupAlong]
  simp only [SearchNode.children, List.get?, bk3a]
  norm_num [backupNode, statsBump, vecAt, solverScan, kChancePlayerId, SearchNode.setChildAt,
    SearchNode.setChildren, SearchNode.setOutcome, SearchNode.children, SearchNode.player,
    SearchNode.outcome, SearchNode.explore_count, SearchNode.total_reward, List.set, n7A0, n7B1,
    n7N10b, List.cons_ne_nil]

set_option maxRecDepth 4000 in
theorem bk3c : backupAlong 1 [1, 0] true true
    (n7root2.setChildAt 0 (SearchNode.mk 10 1 1 1 0 []
      [SearchNode.mk 30 0 (3/10) 0 0 [] [], SearchNode.mk 40 0 (7/10) 0 0 [] []])) [0, 1] =
    (n7root3, false) := by
  have hx : n7root2.setChildAt 0 (SearchNode.mk 10 1 1 1 0 []
      [SearchNode.mk 30 0 (3/10) 0 0 [] [], SearchNode.mk 40 0 (7/10) 0 0 [] []]) =
      SearchNode.mk (-1) 1 1 2 0 [] [SearchNode.mk 10 1 1 1 0 []
        [SearchNode.mk 30 0 (3/10) 0 0 [] [], SearchNode.mk 40 0 (7/10) 0 0 [] []], n7N20] := by
    norm_num [n7root2, SearchNode.setChildAt, SearchNode.setChildren, SearchNode.children,
      List.set]
  rw [hx, backupAlong]
  simp only [SearchNode.children, List.get?, bk3b]
  norm_num [backupNode, statsBump, vecAt, solverScan, kChancePlayerId, SearchNode.setChildAt,
    SearchNode.setChildren, SearchNode.setOutcome, SearchNode.children, SearchNode.player,
    SearchNode.outcome, SearchNode.explore_count, SearchNode.total_reward, List.set, n7N10b,
    n7N20, n7root3, n7A0, n7B1, List.cons_ne_nil]

set_option maxRecDepth 4000 in
theorem sim3 (k : ℕ) : simStep G7 E7 O7 (bot7 k) 0 n7root2 1 2 = some (n7root3, 2) := by
  have hroot : ¬ (SearchNode.Value n7N10a 2 4 < SearchNode.Value n7N20 2 4) := by
    simp [SearchNode.Value, n7N20, n7N10a, SearchNode.outcome, SearchNode.explore_count,
      SearchNode.total_reward, SearchNode.prior]
    nlinarith [Real.sqrt_nonneg 2]
  have hch2 : n7root2.children = [n7N10a, n7N20] := rfl
  have hec2 : n7root2.explore_count = 2 := rfl
  have ha10 : n7N10a.action = 10 := rfl
  unfold simStep
  rw [ApplyTreePolicy]
  norm_num [hch2, hec2, hroot, ha10, G7, bot7, chooseChild, selectIdx, selectFrom, List.get?]
  rw [ApplyTreePolicy]
  norm_num [n7N10a, G7, E7, O7, expandKids, chooseChild, selectIdx, selectFrom, List.get?,
    SearchNode.setChildren, SearchNode.children, SearchNode.explore_count, SearchNode.Value,
    SearchNode.outcome, SearchNode.prior, SearchNode.total_reward, SearchNode.action,
    Real.sqrt_one]
  norm_num [bk3c]

set_option maxRecDepth 4000 in
theorem bk4a : backupAlong 1 [1, -1] true true n7A0 [] = (n7A1, true) := by
  norm_num [backupAlong, backupNode, statsBump, vecAt, n7A0, n7A1, SearchNode.setOutcome,
    SearchNode.children]

set_option maxRecDepth 4000 in
theorem bk4b : backupAlong 1 [1, -1] true true
    (SearchNode.mk 10 1 1 2 0 [1, 0] [n7A0, n7B1]) [0] = (n7N10c, true) := by
  rw [backupAlong]
  simp only [SearchNode.children, List.get?, bk4a]
  norm_num [backupNode, statsBump, vecAt, solverScan, kChancePlayerId, SearchNode.setChildAt,
    SearchNode.setChildren, SearchNode.setOutcome, SearchNode.children, SearchNode.player,
    SearchNode.outcome, SearchNode.explore_count, SearchNode.total_reward, List.set, n7A1, n7B1,
    n7N10c, List.cons_ne_nil]

set_option maxRecDepth 4000 in
theorem bk4c : backupAlong 1 [1, -1] true true
    (n7root3.setChildAt 0 (SearchNode.mk 10 1 1 2 0 [1, 0] [n7A0, n7B1])) [0, 0] =
    (n7root4, false) := by
  have hx : n7root3.setChildAt 0 (SearchNode.mk 10 1 1 2 0 [1, 0] [n7A0, n7B1]) =
      SearchNode.mk (-1) 1 1 3 0 [] [SearchNode.mk 10 1 1 2 0 [1, 0] [n7A0, n7B1], n7N20] := by
    norm_num [n7root3, n7N10b, SearchNode.setChildAt, SearchNode.setChildren, SearchNode.children,
      List.set]
  rw [hx, backupAlong]
  simp only [SearchNode.children, List.get?, bk4b]
  norm_num [backupNode, statsBump, vecAt, solverScan, kChancePlayerId, SearchNode.setChildAt,
    SearchNode.setChildren, SearchNode.setOutcome, SearchNode.children, SearchNode.player,
    SearchNode.outcome, SearchNode.explore_count, SearchNode.total_reward, List.set, n7N10c,
    n7N20, n7root4, n7A1, n7B1, List.cons_ne_nil]

set_option maxRecDepth 4000 in
theorem sim4 (k : ℕ) : simStep G7 E7 O7 (bot7 k) 0 n7root3 2 3 = some (n7root4, 2) := by
  have hroot : ¬ (SearchNode.Value n7N10b 3 4 < SearchNode.Value n7N20 3 4) := by
    norm_num [SearchNode.Value, n7N20, n7N10b, SearchNode.outcome, SearchNode.explore_count,
      SearchNode.total_reward, SearchNode.prior, SearchNode.player, vecAt, List.cons_ne_nil]
  have hsel : ¬ (SearchNode.Value n7A0 2 4 < SearchNode.Value n7B1 2 4) := by
    norm_num [SearchNode.Value, n7A0, n7B1, SearchNode.outcome, SearchNode.explore_count,
      SearchNode.total_reward, SearchNode.prior, SearchNode.player, vecAt, List.cons_ne_nil]
    nlinarith [sqrt2ge1]
  have hch3 : n7root3.children = [n7N10b, n7N20] := rfl
  have hec3 : n7root3.explore_count = 3 := rfl
  have ha10 : n7N10b.action = 10 := rfl
  have hab : n7N10b.children = [n7A0, n7B1] := rfl
  have heb : n7N10b.explore_count = 2 := rfl
  have haa : n7A0.action = 30 := rfl
  have hea : n7A0.explore_count = 0 := rfl
  have hset : n7N10b.setChildAt 0 n7A0 = SearchNode.mk 10 1 1 2 0 [1, 0] [n7A0, n7B1] := rfl
  unfold simStep
  rw [ApplyTreePolicy]
  norm_num [hch3, hec3, hroot, ha10, G7, bot7, chooseChild, selectIdx, selectFrom, List.get?]
  rw [ApplyTreePolicy]
  norm_num [hab, heb, hsel, haa, G7, chooseChild, selectIdx, selectFrom, List.get?]
  rw [ApplyTreePolicy]
  norm_num [G7, hea, hset, bk4c]

theorem loop1 : MCTSearch G7 E7 O7 (bot7 1) 0 = some (n7root1, 0) := by
  show mctsLoop G7 E7 O7 (bot7 1) 0 (bot7 1).max_simulations (mkRoot G7 0) 0 0 =
    some (n7root1, 0)
  rw [show (bot7 1).max_simulations = 0 + 1 from rfl, mctsLoop, sim1 1]
  norm_num [mctsLoop, n7root1, SearchNode.outcome]

theorem loop2 : MCTSearch G7 E7 O7 (bot7 2) 0 = some (n7root2, 1) := by
  show mctsLoop G7 E7 O7 (bot7 2) 0 (bot7 2).max_simulations (mkRoot G7 0) 0 0 =
    some (n7root2, 1)
  have ho1 : n7root1.outcome = [] := rfl
  rw [show (bot7 2).max_simulations = 1 + 1 from rfl, mctsLoop, sim1 2]
  norm_num [ho1]
  rw [show (1:ℕ) = 0 + 1 from rfl, mctsLoop, sim2 2]
  norm_num [mctsLoop, n7root2, SearchNode.outcome]

theorem loop3 : MCTSearch G7 E7 O7 (bot7 3) 0 = some (n7root3, 2) := by
  show mctsLoop G7 E7 O7 (bot7 3) 0 (bot7 3).max_simulations (mkRoot G7 0) 0 0 =
    some (n7root3, 2)
  have ho1 : n7root1.outcome = [] := rfl
  have ho2 : n7root2.outcome = [] := rfl
  rw [show (bot7 3).max_simulations = 2 + 1 from rfl, mctsLoop, sim1 3]
  norm_num [ho1]
  rw [show (2:ℕ) = 1 + 1 from rfl, mctsLoop, sim2 3]
  norm_num [ho2]
  rw [show (1:ℕ) = 0 + 1 from rfl, mctsLoop, sim3 3]
  norm_num [mctsLoop, n7root3, SearchNode.outcome]

theorem loop4 : MCTSearch G7 E7 O7 (bot7 4) 0 = some (n7root4, 2) := by
  show mctsLoop G7 E7 O7 (bot7 4) 0 (bot7 4).max_simulations (mkRoot G7 0) 0 0 =
    some (n7root4, 2)
  have ho1 : n7root1.outcome = [] := rfl
  have ho2 : n7root2.outcome = [] := rfl
  have ho3 : n7root3.outcome = [] := rfl
  rw [show (bot7 4).max_simulations = 3 + 1 from rfl, mctsLoop, sim1 4]
  norm_num [ho1]
  rw [show (3:ℕ) = 2 + 1 from rfl, mctsLoop, sim2 4]
  norm_num [ho2]
  rw [show (2:ℕ) = 1 + 1 from rfl, mctsLoop, sim3 4]
  norm_num [ho3]
  rw [show (1:ℕ) = 0 + 1 from rfl, mctsLoop, sim4 4]
  norm_num [mctsLoop, n7root4, SearchNode.outcome]

/-! Small algebra of the node updaters.  -/

theorem children_setChildren (n : SearchNode) (ch : List SearchNode) :
    (n.setChildren ch).children = ch := by cases n; rfl

theorem outcome_setChildren (n : SearchNode) (ch : List SearchNode) :
    (n.setChildren ch).outcome = n.outcome := by cases n; rfl

theorem explore_setChildren (n : SearchNode) (ch : List SearchNode) :
    (n.setChildren ch).explore_count = n.explore_count := by cases n; rfl

theorem action_setChildren (n : SearchNode) (ch : List SearchNode) :
    (n.setChildren ch).action = n.action := by cases n; rfl

theorem player_setChildren (n : SearchNode) (ch : List SearchNode) :
    (n.setChildren ch).player = n.player := by cases n; rfl

theorem children_setOutcome (n : SearchNode) (oc : List ℝ) :
    (n.setOutcome oc).children = n.children := by cases n; rfl

theorem outcome_setOutcome (n : SearchNode) (oc : List ℝ) :
    (n.setOutcome oc).outcome = oc := by cases n; rfl

theorem explore_setOutcome (n : SearchNode) (oc : List ℝ) :
    (n.setOutcome oc).explore_count = n.explore_count := by cases n; rfl

theorem action_setOutcome (n : SearchNode) (oc : List ℝ) :
    (n.setOutcome oc).action = n.action := by cases n; rfl

theorem player_setOutcome (n : SearchNode) (oc : List ℝ) :
    (n.setOutcome oc).player = n.player := by cases n; rfl

theorem children_statsBump (rets : List ℝ) (n : SearchNode) :
    (statsBump rets n).children = n.children := by cases n; rfl

theorem outcome_statsBump (rets : List ℝ) (n : SearchNode) :
    (statsBump rets n).outcome = n.outcome := by cases n; rfl

theorem explore_statsBump (rets : List ℝ) (n : SearchNode) :
    (statsBump rets n).explore_count = n.explore_count + 1 := by cases n; rfl

theorem reward_statsBump (rets : List ℝ) (n : SearchNode) :
    (statsBump rets n).total_reward = n.total_reward + vecAt rets n.player := by cases n; rfl

theorem action_statsBump (rets : List ℝ) (n : SearchNode) :
    (statsBump rets n).action = n.action := by cases n; rfl

theorem player_statsBump (rets : List ℝ) (n : SearchNode) :
    (statsBump rets n).player = n.player := by cases n; rfl

theorem children_setChildAt (n : SearchNode) (i : ℕ) (c : SearchNode) :
    (n.setChildAt i c).children = n.children.set i c := by cases n; rfl

theorem outcome_setChildAt (n : SearchNode) (i : ℕ) (c : SearchNode) :
    (n.setChildAt i c).outcome = n.outcome := by cases n; rfl

theorem explore_setChildAt (n : SearchNode) (i : ℕ) (c : SearchNode) :
    (n.setChildAt i c).explore_count = n.explore_count := by cases n; rfl

set_option maxRecDepth 4000 in
set_option maxHeartbeats 1000000 in
/-- Claim C1 (code_bug exhibit): at the chance node of GC, with declared
outcomes [(0, 1/2), (1, 1/2)] summing to 1 and uniform draw r = 1/4,
the claim (and the spec) require outcome 0, whose CDF interval (0, 1/2]
contains the draw, to be sampled; the linear scan of mcts.cc lines
238-242 instead selects outcome 1 and the tree policy descends into the
child whose action is 1.  -/
theorem C1_chance_sampling_shifted :
    sampleChanceAction [(0, 1/2), (1, 1/2)] (1/4) = some 1 ∧
    ApplyTreePolicy GC EC OC 1 rootC 0 0 = some ([1], rootC, 2, 1) := by
  constructor
  · norm_num [sampleChanceAction, cdfScan]
  · have hsamp : sampleChanceAction (GC.chanceOutcomes 0) (OC.draw 0) = some 1 := by
      norm_num [GC, OC, sampleChanceAction, cdfScan]
    have hcc : chooseChild GC OC 1 rootC 0 0 = some (1, 1) := by
      unfold chooseChild
      rw [if_pos (by norm_num [GC])]
      rw [hsamp]
      norm_num [rootC, findChildIdx, SearchNode.action, SearchNode.children]
    rw [ApplyTreePolicy]
    rw [if_neg (by norm_num [GC, rootC, SearchNode.explore_count])]
    have hch : rootC.children =
        [SearchNode.mk 0 (-1) (1/2) 0 0 [] [], SearchNode.mk 1 (-1) (1/2) 0 0 [] []] := rfl
    simp only [hch, hcc]
    rw [dif_pos (by norm_num)]
    rw [ApplyTreePolicy]
    rfl

set_option maxRecDepth 4000 in
/-- Claim C2 (code_bug exhibit): at the chance node of GC1, with the
single declared outcome (5, 1) (probabilities summing to 1) and uniform
draw r = 1/2 in [0,1), the CDF scan of mcts.cc lines 238-241 stops at
index 1 = the length of the outcomes vector, so the read at line 242 is
out of range, no chance outcome is matched against the one child (whose
action 5 is the declared outcome), and the tree policy dereferences a
null chosen child: the modelled execution is none, against the claim
that every in-range read succeeds and the chosen child is non-null.  -/
theorem C2_cdf_scan_out_of_range :
    cdfScan (1/2) 0 0 [((5:ℤ), (1:ℝ))] = some 1 ∧
    ([((5:ℤ), (1:ℝ))].get? 1 = none) ∧
    sampleChanceAction [((5:ℤ), (1:ℝ))] (1/2) = none ∧
    ApplyTreePolicy GC1 EC1 OC1 1 rootC1 0 0 = none := by
  refine ⟨by norm_num [cdfScan], rfl, by norm_num [sampleChanceAction, cdfScan], ?_⟩
  rw [ApplyTreePolicy]
  norm_num [GC1, rootC1, chooseChild, sampleChanceAction, cdfScan, OC1,
    SearchNode.explore_count, SearchNode.children]

/-- Claim C3 (counterexample): on the non-terminal G7 root state 0,
which has legal moves (the prior is non-empty), a Step call with
max_simulations = 1 does NOT expand the root: the search returns the
root with empty children and explore_count 1, BestChild has no child to
return, and the modelled Step is none (the source dereferences
std::max_element's end iterator), against the claim that the root is
expanded and a well-defined action is returned.  -/
theorem C3_counterexample :
    G7.isTerminal 0 = false ∧ E7.Prior 0 ≠ [] ∧
    MCTSearch G7 E7 O7 (bot7 1) 0 = some (n7root1, 0) ∧
    n7root1.children = [] ∧ n7root1.explore_count = 1 ∧
    n7root1.BestChild = none ∧
    Step G7 E7 O7 (bot7 1) 0 = none := by
  refine ⟨rfl, by simp [E7], loop1, rfl, rfl, rfl, ?_⟩
  unfold Step
  rw [loop1]
  rfl

/-- Claim C4 (counterexample): in the G7 search, the root's
explore_count transitions from 0 to 1 during the first simulation while
its children stay empty, and the root is expanded (children become
non-empty) only during the second simulation, in which explore_count
transitions from 1 to 2 — against the claim that children become
non-empty exactly during the simulation in which explore_count
transitions from 0 to ≥ 1.  -/
theorem C4_counterexample :
    G7.isTerminal 0 = false ∧
    (mkRoot G7 0).explore_count = 0 ∧ (mkRoot G7 0).children = [] ∧
    simStep G7 E7 O7 (bot7 2) 0 (mkRoot G7 0) 0 0 = some (n7root1, 0) ∧
    n7root1.explore_count = 1 ∧ n7root1.children = [] ∧
    simStep G7 E7 O7 (bot7 2) 0 n7root1 0 1 = some (n7root2, 1) ∧
    n7root2.explore_count = 2 ∧ n7root2.children ≠ [] := by
  exact ⟨rfl, rfl, rfl, sim1 2, rfl, rfl, sim2 2, rfl, by simp [n7root2, SearchNode.children]⟩

/-- Claim C7 (counterexample): during the single Step call of the G7
bot with max_simulations = 4, the node at path [0] below the root has
the non-empty outcome [1, 0] after the third simulation (the solver
proved it through child B) and the different outcome [1, -1] after the
fourth (all children became solved and the earlier child A, of equal
value 1 for player 0 but different value for player 1, became the best),
against the claim that a non-empty outcome never changes.  -/
theorem C7_counterexample :
    simStep G7 E7 O7 (bot7 4) 0 (mkRoot G7 0) 0 0 = some (n7root1, 0) ∧
    simStep G7 E7 O7 (bot7 4) 0 n7root1 0 1 = some (n7root2, 1) ∧
    simStep G7 E7 O7 (bot7 4) 0 n7root2 1 2 = some (n7root3, 2) ∧
    simStep G7 E7 O7 (bot7 4) 0 n7root3 2 3 = some (n7root4, 2) ∧
    MCTSearch G7 E7 O7 (bot7 4) 0 = some (n7root4, 2) ∧
    nodeAt n7root3 [0] = some n7N10b ∧ n7N10b.outcome = [1, 0] ∧
    nodeAt n7root4 [0] = some n7N10c ∧ n7N10c.outcome = [1, -1] ∧
    ([1, 0] : List ℝ) ≠ [1, -1] := by
  refine ⟨sim1 4, sim2 4, sim3 4, sim4 4, loop4, ?_, rfl, ?_, rfl, by norm_num⟩
  · norm_num [nodeAt, n7root3, SearchNode.children, List.get?]
  · norm_num [nodeAt, n7root4, SearchNode.children, List.get?]

theorem prior_setChildren (n : SearchNode) (ch : List SearchNode) :
    (n.setChildren ch).prior = n.prior := by cases n; rfl

theorem prior_setOutcome (n : SearchNode) (oc : List ℝ) :
    (n.setOutcome oc).prior = n.prior := by cases n; rfl

theorem prior_statsBump (rets : List ℝ) (n : SearchNode) :
    (statsBump rets n).prior = n.prior := by cases n; rfl

theorem reward_setChildren (n : SearchNode) (ch : List SearchNode) :
    (n.setChildren ch).total_reward = n.total_reward := by cases n; rfl

theorem reward_setOutcome (n : SearchNode) (oc : List ℝ) :
    (n.setOutcome oc).total_reward = n.total_reward := by cases n; rfl

theorem outcome_statsBump2 (rets : List ℝ) (n : SearchNode) :
    (statsBump rets n).outcome = n.outcome := by cases n; rfl

theorem solverScan_some_ne (p : ℤ) :
    ∀ (l : List SearchNode) (acc : Option SearchNode) (allS : Bool) (b : SearchNode) (a2 : Bool),
      solverScan p l acc allS = (some b, a2) →
      (∀ b0, acc = some b0 → b0.outcome ≠ []) → b.outcome ≠ [] := by
  intro l
  induction l with
  | nil =>
    intro acc allS b a2 h hacc
    simp only [solverScan] at h
    injection h with h1 h2
    exact hacc b h1
  | cons c cs ih =>
    intro acc allS b a2 h hacc
    simp only [solverScan] at h
    by_cases hoc : c.outcome = []
    · rw [if_pos hoc] at h
      exact ih acc false b a2 h hacc
    · rw [if_neg hoc] at h
      cases acc with
      | none => exact ih (some c) allS b a2 h (by intro b0 hb0; cases hb0; exact hoc)
      | some b1 =>
        simp only [] at h
        by_cases hgt : vecAt c.outcome p > vecAt b1.outcome p
        · rw [if_pos hgt] at h
          exact ih (some c) allS b a2 h (by intro b0 hb0; cases hb0; exact hoc)
        · rw [if_neg hgt] at h
          exact ih (some b1) allS b a2 h (by intro b0 hb0; cases hb0; exact hacc b1 rfl)

theorem backupNode_shape (maxU : ℝ) (rets : List ℝ) (sv : Bool) (n : SearchNode) :
    (backupNode maxU rets sv n).1 = statsBump rets n ∨
    ∃ v, v ≠ [] ∧ (backupNode maxU rets sv n).1 = (statsBump rets n).setOutcome v := by
  simp only [backupNode]
  split
  · split
    · exact Or.inl rfl
    · rename_i c0 cs heq
      split
      · split
        · rename_i hcond
          exact Or.inr ⟨c0.outcome, hcond.1, rfl⟩
        · exact Or.inl rfl
      · split
        · rename_i b allS hscan
          split
          · refine Or.inr ⟨b.outcome, ?_, rfl⟩
            exact solverScan_some_ne c0.player (statsBump rets n).children none true b allS hscan
              (by intro b0 hb0; cases hb0)
          · exact Or.inl rfl
        · exact Or.inl rfl
  · exact Or.inl rfl


theorem pathLe_nil (p : List ℕ) : pathLe [] p := by simp [pathLe]

theorem pathLe_iff_nil (q : List ℕ) : pathLe q [] ↔ q = [] := by
  simp [pathLe, eq_comm]

theorem pathLe_cons (j i : ℕ) (q p : List ℕ) :
    pathLe (j :: q) (i :: p) ↔ j = i ∧ pathLe q p := by
  unfold pathLe
  rw [List.length_cons, List.take_succ_cons]
  constructor
  · intro h
    injection h with h1 h2
    exact ⟨h1.symm, h2⟩
  · rintro ⟨h1, h2⟩
    rw [h1, h2]

theorem nodeAt_congr_children (m m' : SearchNode) (h : m'.children = m.children) (j : ℕ)
    (q : List ℕ) : nodeAt m' (j :: q) = nodeAt m (j :: q) := by
  simp only [nodeAt, h]

theorem backupNode_outcome_ne (maxU : ℝ) (rets : List ℝ) (sv : Bool) (n : SearchNode)
    (h : n.outcome ≠ []) : (backupNode maxU rets sv n).1.outcome ≠ [] := by
  rcases backupNode_shape maxU rets sv n with hs | ⟨v, hv, hs⟩
  · rw [hs]; cases n; simpa [statsBump, SearchNode.outcome] using h
  · rw [hs]; cases n; simpa [statsBump, SearchNode.setOutcome, SearchNode.outcome] using hv

theorem backupNode_fields (maxU : ℝ) (rets : List ℝ) (sv : Bool) (n : SearchNode) :
    (backupNode maxU rets sv n).1.children = n.children ∧
    (backupNode maxU rets sv n).1.explore_count = n.explore_count + 1 ∧
    (backupNode maxU rets sv n).1.total_reward = n.total_reward + vecAt rets n.player ∧
    (backupNode maxU rets sv n).1.action = n.action ∧
    (backupNode maxU rets sv n).1.player = n.player ∧
    (backupNode maxU rets sv n).1.prior = n.prior := by
  rcases backupNode_shape maxU rets sv n with hs | ⟨v, hv, hs⟩ <;>
    · rw [hs]; cases n; simp [statsBump, SearchNode.setOutcome, SearchNode.children,
        SearchNode.explore_count, SearchNode.total_reward, SearchNode.action, SearchNode.player,
        SearchNode.prior]


theorem backupAlong_frame (maxU : ℝ) (rets : List ℝ) (sv0 setF : Bool) :
    ∀ (p : List ℕ) (n : SearchNode) (q : List ℕ) (x : SearchNode), nodeAt n q = some x →
      ∃ x', nodeAt (backupAlong maxU rets sv0 setF n p).1 q = some x' ∧
        x'.action = x.action ∧ x'.player = x.player ∧ x'.prior = x.prior ∧
        x'.children.length = x.children.length ∧
        (pathLe q p →
          x'.explore_count = x.explore_count + 1 ∧
          x'.total_reward = x.total_reward + vecAt rets x.player ∧
          (x.outcome ≠ [] → rets ≠ [] → x'.outcome ≠ [])) ∧
        (¬ pathLe q p → x' = x) := by
  intro p
  induction p with
  | nil =>
    intro n q x hx
    have hba : (backupAlong maxU rets sv0 setF n []).1 =
        (backupNode maxU rets sv0 (if setF = true then n.setOutcome rets else n)).1 := rfl
    have hfld := backupNode_fields maxU rets sv0 (if setF = true then n.setOutcome rets else n)
    have hmf : (if setF = true then n.setOutcome rets else n).action = n.action ∧
        (if setF = true then n.setOutcome rets else n).player = n.player ∧
        (if setF = true then n.setOutcome rets else n).prior = n.prior ∧
        (if setF = true then n.setOutcome rets else n).children = n.children ∧
        (if setF = true then n.setOutcome rets else n).explore_count = n.explore_count ∧
        (if setF = true then n.setOutcome rets else n).total_reward = n.total_reward := by
      split <;> simp [action_setOutcome, player_setOutcome, prior_setOutcome,
        children_setOutcome, explore_setOutcome, reward_setOutcome]
    cases q with
    | nil =>
      have hnx : n = x := by simpa [nodeAt] using hx
      subst hnx
      refine ⟨(backupAlong maxU rets sv0 setF n []).1, rfl, ?_, ?_, ?_, ?_, ?_, ?_⟩
      · rw [hba, hfld.2.2.2.1, hmf.1]
      · rw [hba, hfld.2.2.2.2.1, hmf.2.1]
      · rw [hba, hfld.2.2.2.2.2, hmf.2.2.1]
      · rw [hba, hfld.1, hmf.2.2.2.1]
      · intro _
        refine ⟨?_, ?_, ?_⟩
        · rw [hba, hfld.2.1, hmf.2.2.2.2.1]
        · rw [hba, hfld.2.2.1, hmf.2.2.2.2.2, hmf.2.1]
        · intro h1 h2
          rw [hba]
          refine backupNode_outcome_ne maxU rets sv0 _ ?_
          split
          · simpa [outcome_setOutcome] using h2
          · exact h1
      · intro hcon
        exact absurd (pathLe_nil []) hcon
    | cons j q' =>
      have hch : (backupAlong maxU rets sv0 setF n []).1.children = n.children := by
        rw [hba, hfld.1, hmf.2.2.2.1]
      refine ⟨x, ?_, rfl, rfl, rfl, rfl, ?_, fun _ => rfl⟩
      · rw [nodeAt_congr_children n _ hch j q']
        exact hx
      · intro hcon
        rw [pathLe_iff_nil] at hcon
        cases hcon
  | cons i p' ih =>
    intro n q x hx
    cases hgi : n.children.get? i with
    | none =>
      have hba : (backupAlong maxU rets sv0 setF n (i :: p')).1 =
          (backupNode maxU rets false n).1 := by
        show (match n.children.get? i with
          | none => backupNode maxU rets false n
          | some c =>
            let r := backupAlong maxU rets sv0 setF c p'
            backupNode maxU rets r.2 (n.setChildAt i r.1)).1 = _
        rw [hgi]
      have hfld := backupNode_fields maxU rets false n
      cases q with
      | nil =>
        have hnx : n = x := by simpa [nodeAt] using hx
        subst hnx
        refine ⟨(backupAlong maxU rets sv0 setF n (i :: p')).1, rfl, ?_, ?_, ?_, ?_, ?_, ?_⟩
        · rw [hba, hfld.2.2.2.1]
        · rw [hba, hfld.2.2.2.2.1]
        · rw [hba, hfld.2.2.2.2.2]
        · rw [hba, hfld.1]
        · intro _
          exact ⟨by rw [hba, hfld.2.1], by rw [hba, hfld.2.2.1],
            fun h1 h2 => by rw [hba]; exact backupNode_outcome_ne maxU rets false n h1⟩
        · intro hcon
          exact absurd (pathLe_nil _) hcon
      | cons j q' =>
        have hoff : ¬ pathLe (j :: q') (i :: p') := by
          rw [pathLe_cons]
          rintro ⟨hj, _⟩
          subst hj
          simp only [nodeAt, hgi] at hx
          cases hx
        refine ⟨x, ?_, rfl, rfl, rfl, rfl, fun hc => absurd hc hoff, fun _ => rfl⟩
        rw [nodeAt_congr_children n _ (by rw [hba, hfld.1]) j q']
        exact hx
    | some c =>
      have hba : (backupAlong maxU rets sv0 setF n (i :: p')).1 =
          (backupNode maxU rets (backupAlong maxU rets sv0 setF c p').2
            (n.setChildAt i (backupAlong maxU rets sv0 setF c p').1)).1 := by
        show (match n.children.get? i with
          | none => backupNode maxU rets false n
          | some c =>
            let r := backupAlong maxU rets sv0 setF c p'
            backupNode maxU rets r.2 (n.setChildAt i r.1)).1 = _
        rw [hgi]
      have hfld := backupNode_fields maxU rets (backupAlong maxU rets sv0 setF c p').2
        (n.setChildAt i (backupAlong maxU rets sv0 setF c p').1)
      have hchl : (backupAlong maxU rets sv0 setF n (i :: p')).1.children =
          n.children.set i (backupAlong maxU rets sv0 setF c p').1 := by
        rw [hba, hfld.1, children_setChildAt]
      cases q with
      | nil =>
        have hnx : n = x := by simpa [nodeAt] using hx
        subst hnx
        refine ⟨(backupAlong maxU rets sv0 setF n (i :: p')).1, rfl, ?_, ?_, ?_, ?_, ?_, ?_⟩
        · rw [hba, hfld.2.2.2.1]; cases n; rfl
        · rw [hba, hfld.2.2.2.2.1]; cases n; rfl
        · rw [hba, hfld.2.2.2.2.2]; cases n; rfl
        · rw [hchl, List.length_set]
        · intro _
          refine ⟨?_, ?_, ?_⟩
          · rw [hba, hfld.2.1, explore_setChildAt]
          · rw [hba, hfld.2.2.1]; cases n; simp [SearchNode.setChildAt, SearchNode.setChildren,
              SearchNode.total_reward, SearchNode.player]
          · intro h1 h2
            rw [hba]
            refine backupNode_outcome_ne maxU rets _ _ ?_
            rw [outcome_setChildAt]
            exact h1
        · intro hcon
          exact absurd (pathLe_nil _) hcon
      | cons j q' =>
        simp only [nodeAt] at hx
        by_cases hji : j = i
        · rw [hji] at hx
          simp only [hgi] at hx
          obtain ⟨x2, hx2, hfl⟩ := ih c q' x hx
          have hget2 : (backupAlong maxU rets sv0 setF n (i :: p')).1.children.get? i =
              some (backupAlong maxU rets sv0 setF c p').1 := by
            rw [hchl, List.get?_set_eq, hgi]
            rfl
          refine ⟨x2, ?_, hfl.1, hfl.2.1, hfl.2.2.1, hfl.2.2.2.1, ?_, ?_⟩
          · simp only [nodeAt, hji, hget2]
            exact hx2
          · intro hc
            rw [pathLe_cons] at hc
            exact hfl.2.2.2.2.1 hc.2
          · intro hc
            rw [pathLe_cons] at hc
            push_neg at hc
            exact hfl.2.2.2.2.2 (fun h2 => hc hji h2)
        · cases hgj : n.children.get? j with
          | none => rw [hgj] at hx; cases hx
          | some cj =>
            rw [hgj] at hx
            simp only [] at hx
            have hget2 : (backupAlong maxU rets sv0 setF n (i :: p')).1.children.get? j =
                some cj := by
              rw [hchl, List.get?_set_ne _ _ (fun h => hji h.symm)]
              exact hgj
            have hoff : ¬ pathLe (j :: q') (i :: p') := by
              rw [pathLe_cons]
              rintro ⟨hj, _⟩
              exact hji hj
            refine ⟨x, ?_, rfl, rfl, rfl, rfl, fun hc => absurd hc hoff, fun _ => rfl⟩
            simp only [nodeAt, hget2]
            exact hx

theorem solverScan_allS (p : ℤ) :
    ∀ (l : List SearchNode) (acc : Option SearchNode) (allS : Bool),
      (solverScan p l acc allS).2 = true ↔ (allS = true ∧ ∀ c ∈ l, c.outcome ≠ []) := by
  intro l
  induction l with
  | nil => intro acc allS; simp [solverScan]
  | cons c cs ih =>
    intro acc allS
    simp only [solverScan]
    by_cases hoc : c.outcome = []
    · rw [if_pos hoc]
      rw [ih acc false]
      simp [hoc]
    · rw [if_neg hoc]
      cases acc with
      | none =>
        rw [ih (some c) allS]
        simp only [List.mem_cons]
        constructor
        · rintro ⟨h1, h2⟩
          exact ⟨h1, by rintro x (rfl | hx); exact hoc; exact h2 x hx⟩
        · rintro ⟨h1, h2⟩
          exact ⟨h1, fun x hx => h2 x (Or.inr hx)⟩
      | some b1 =>
        have key : ∀ acc2, (solverScan p cs acc2 allS).2 = true ↔
            (allS = true ∧ ∀ x ∈ cs, x.outcome ≠ []) := fun acc2 => ih acc2 allS
        simp only []
        split <;>
          · rw [key _]
            simp only [List.mem_cons]
            constructor
            · rintro ⟨h1, h2⟩
              exact ⟨h1, by rintro x (rfl | hx); exact hoc; exact h2 x hx⟩
            · rintro ⟨h1, h2⟩
              exact ⟨h1, fun x hx => h2 x (Or.inr hx)⟩

theorem solverScan_mem (p : ℤ) :
    ∀ (l : List SearchNode) (acc : Option SearchNode) (allS : Bool) (b : SearchNode),
      (solverScan p l acc allS).1 = some b →
      (b ∈ l ∧ b.outcome ≠ []) ∨ acc = some b := by
  intro l
  induction l with
  | nil =>
    intro acc allS b h
    simp only [solverScan] at h
    exact Or.inr h
  | cons c cs ih =>
    intro acc allS b h
    simp only [solverScan] at h
    by_cases hoc : c.outcome = []
    · rw [if_pos hoc] at h
      rcases ih acc false b h with ⟨h1, h2⟩ | h1
      · exact Or.inl ⟨List.mem_cons_of_mem c h1, h2⟩
      · exact Or.inr h1
    · rw [if_neg hoc] at h
      cases acc with
      | none =>
        rcases ih (some c) allS b h with ⟨h1, h2⟩ | h1
        · exact Or.inl ⟨List.mem_cons_of_mem c h1, h2⟩
        · injection h1 with h1
          exact Or.inl ⟨by rw [← h1]; exact List.mem_cons_self c cs,
            by rw [← h1]; exact hoc⟩
      | some b1 =>
        simp only [] at h
        split at h
        · rcases ih (some c) allS b h with ⟨h1, h2⟩ | h1
          · exact Or.inl ⟨List.mem_cons_of_mem c h1, h2⟩
          · injection h1 with h1
            exact Or.inl ⟨by rw [← h1]; exact List.mem_cons_self c cs,
              by rw [← h1]; exact hoc⟩
        · rcases ih (some b1) allS b h with ⟨h1, h2⟩ | h1
          · exact Or.inl ⟨List.mem_cons_of_mem c h1, h2⟩
          · exact Or.inr h1

theorem solverScan_exists (p : ℤ) :
    ∀ (l : List SearchNode) (acc : Option SearchNode) (allS : Bool),
      ((∃ c ∈ l, c.outcome ≠ []) ∨ acc.isSome = true) →
      ∃ b, (solverScan p l acc allS).1 = some b := by
  intro l
  induction l with
  | nil =>
    intro acc allS h
    rcases h with ⟨c, hc, _⟩ | h
    · cases hc
    · cases acc with
      | none => cases h
      | some b => exact ⟨b, rfl⟩
  | cons c cs ih =>
    intro acc allS h
    simp only [solverScan]
    by_cases hoc : c.outcome = []
    · rw [if_pos hoc]
      refine ih acc false ?_
      rcases h with ⟨x, hx, hxo⟩ | h
      · rcases List.mem_cons.mp hx with rfl | hx2
        · exact absurd hoc hxo
        · exact Or.inl ⟨x, hx2, hxo⟩
      · exact Or.inr h
    · rw [if_neg hoc]
      cases acc with
      | none => exact ih (some c) allS (Or.inr rfl)
      | some b1 =>
        simp only []
        split
        · exact ih (some c) allS (Or.inr rfl)
        · exact ih (some b1) allS (Or.inr rfl)

theorem solverScan_max (p : ℤ) :
    ∀ (l : List SearchNode) (acc : Option SearchNode) (allS : Bool) (b : SearchNode),
      (solverScan p l acc allS).1 = some b →
      (∀ b0, acc = some b0 → vecAt b0.outcome p ≤ vecAt b.outcome p) ∧
      (∀ c ∈ l, c.outcome ≠ [] → vecAt c.outcome p ≤ vecAt b.outcome p) := by
  intro l
  induction l with
  | nil =>
    intro acc allS b h
    simp only [solverScan] at h
    constructor
    · intro b0 hb0
      rw [hb0] at h
      injection h with h
      rw [h]
    · intro c hc
      cases hc
  | cons c cs ih =>
    intro acc allS b h
    simp only [solverScan] at h
    by_cases hoc : c.outcome = []
    · rw [if_pos hoc] at h
      obtain ⟨k1, k2⟩ := ih acc false b h
      refine ⟨k1, ?_⟩
      rintro x hx hxo
      rcases List.mem_cons.mp hx with rfl | hx2
      · exact absurd hoc hxo
      · exact k2 x hx2 hxo
    · rw [if_neg hoc] at h
      cases acc with
      | none =>
        obtain ⟨k1, k2⟩ := ih (some c) allS b h
        refine ⟨(fun b0 hb0 => nomatch hb0), ?_⟩
        rintro x hx hxo
        rcases List.mem_cons.mp hx with rfl | hx2
        · exact k1 x rfl
        · exact k2 x hx2 hxo
      | some b1 =>
        simp only [] at h
        by_cases hgt : vecAt c.outcome p > vecAt b1.outcome p
        · rw [if_pos hgt] at h
          obtain ⟨k1, k2⟩ := ih (some c) allS b h
          have hcb : vecAt c.outcome p ≤ vecAt b.outcome p := k1 c rfl
          refine ⟨?_, ?_⟩
          · rintro b0 hb0
            injection hb0 with hb0
            rw [← hb0]
            exact le_trans (le_of_lt hgt) hcb
          · rintro x hx hxo
            rcases List.mem_cons.mp hx with rfl | hx2
            · exact hcb
            · exact k2 x hx2 hxo
        · rw [if_neg hgt] at h
          obtain ⟨k1, k2⟩ := ih (some b1) allS b h
          have hb1b : vecAt b1.outcome p ≤ vecAt b.outcome p := k1 b1 rfl
          refine ⟨?_, ?_⟩
          · rintro b0 hb0
            injection hb0 with hb0
            rw [← hb0]
            exact hb1b
          · rintro x hx hxo
            rcases List.mem_cons.mp hx with rfl | hx2
            · exact le_trans (le_of_not_lt hgt) hb1b
            · exact k2 x hx2 hxo

/-- Claim C5: during a backup pass that is still solved, a node whose
first child carries the chance-player sentinel is proven, its outcome
becoming the children's common outcome vector, exactly when every child
has the same non-empty outcome; otherwise its outcome is untouched (in
particular stays empty) and the solved flag is cleared, after which
every further node of the pass is only statistics-bumped and never
proven, while explore_count and total_reward still accumulate at every
node on the visit path.  -/
theorem C5_chance_backup (maxU : ℝ) (rets : List ℝ) (n c0 : SearchNode) (cs : List SearchNode)
    (hch : n.children = c0 :: cs) (hp : c0.player = kChancePlayerId) :
    ((backupNode maxU rets true n).2 = true ↔
      (c0.outcome ≠ [] ∧ ∀ c ∈ cs, c.outcome = c0.outcome)) ∧
    ((c0.outcome ≠ [] ∧ ∀ c ∈ cs, c.outcome = c0.outcome) →
      (backupNode maxU rets true n).1 = (statsBump rets n).setOutcome c0.outcome) ∧
    (¬(c0.outcome ≠ [] ∧ ∀ c ∈ cs, c.outcome = c0.outcome) →
      (backupNode maxU rets true n).1 = statsBump rets n) ∧
    (∀ m, backupNode maxU rets false m = (statsBump rets m, false)) ∧
    (∀ (p : List ℕ) (sv0 setF : Bool) (q : List ℕ) (x : SearchNode),
      pathLe q p → nodeAt n q = some x →
      ∃ x', nodeAt (backupAlong maxU rets sv0 setF n p).1 q = some x' ∧
        x'.explore_count = x.explore_count + 1 ∧
        x'.total_reward = x.total_reward + vecAt rets x.player) := by
  have e1 : (statsBump rets n).children = c0 :: cs := by rw [children_statsBump, hch]
  have hb : backupNode maxU rets true n =
      if c0.outcome ≠ [] ∧ ∀ c ∈ cs, c.outcome = c0.outcome then
        ((statsBump rets n).setOutcome c0.outcome, true)
      else (statsBump rets n, false) := by
    simp only [backupNode, eq_self_iff_true, if_true, e1, if_pos hp]
  refine ⟨?_, ?_, ?_, ?_, ?_⟩
  · rw [hb]
    by_cases hcond : c0.outcome ≠ [] ∧ ∀ c ∈ cs, c.outcome = c0.outcome
    · rw [if_pos hcond]; simpa using hcond
    · rw [if_neg hcond]; simpa using hcond
  · intro hcond
    rw [hb, if_pos hcond]
  · intro hcond
    rw [hb, if_neg hcond]
  · intro m
    simp [backupNode]
  · intro p sv0 setF q x hq hx
    obtain ⟨x', h1, _, _, _, _, h6, _⟩ := backupAlong_frame maxU rets sv0 setF p n q x hx
    exact ⟨x', h1, (h6 hq).1, (h6 hq).2.1⟩

/-- Claim C6: during a backup pass that is still solved, a decision node
(first child's player is not the chance sentinel) is proven exactly when
some child is solved and either all children are solved or the largest
outcome[player] over solved children equals the game's maximum utility;
on proof the node's outcome becomes the full outcome vector of a solved
child attaining that maximum; otherwise the node is only
statistics-bumped (its outcome, in particular, stays as it was) and the
solved flag is cleared for the remaining ancestors.  -/
theorem C6_decision_backup (maxU : ℝ) (rets : List ℝ) (n c0 : SearchNode) (cs : List SearchNode)
    (hch : n.children = c0 :: cs) (hp : ¬ c0.player = kChancePlayerId) :
    ((backupNode maxU rets true n).2 = true ↔
      ((∃ c ∈ n.children, c.outcome ≠ []) ∧
        ((∀ c ∈ n.children, c.outcome ≠ []) ∨
          ∃ b ∈ n.children, b.outcome ≠ [] ∧
            (∀ c ∈ n.children, c.outcome ≠ [] →
              vecAt c.outcome c0.player ≤ vecAt b.outcome c0.player) ∧
            vecAt b.outcome c0.player = maxU))) ∧
    ((backupNode maxU rets true n).2 = true →
      ∃ b ∈ n.children, b.outcome ≠ [] ∧
        (∀ c ∈ n.children, c.outcome ≠ [] →
          vecAt c.outcome c0.player ≤ vecAt b.outcome c0.player) ∧
        (backupNode maxU rets true n).1 = (statsBump rets n).setOutcome b.outcome) ∧
    ((backupNode maxU rets true n).2 = false →
      (backupNode maxU rets true n).1 = statsBump rets n) := by
  have e1 : (statsBump rets n).children = c0 :: cs := by rw [children_statsBump, hch]
  have hb : backupNode maxU rets true n =
      match solverScan c0.player (c0 :: cs) none true with
      | (some b, allS) =>
        if allS = true ∨ vecAt b.outcome c0.player = maxU then
          ((statsBump rets n).setOutcome b.outcome, true)
        else (statsBump rets n, false)
      | (none, _) => (statsBump rets n, false) := by
    simp only [backupNode, eq_self_iff_true, if_true, e1, if_neg hp]
  rcases hscan : solverScan c0.player (c0 :: cs) none true with ⟨b?, allS⟩
  cases b? with
  | none =>
    rw [hscan] at hb
    simp only [] at hb
    have hnosolved : ∀ c ∈ c0 :: cs, ¬ c.outcome ≠ [] := by
      intro c hc hcon
      obtain ⟨b, hbs⟩ := solverScan_exists c0.player (c0 :: cs) none true
        (Or.inl ⟨c, hc, hcon⟩)
      rw [hscan] at hbs
      cases hbs
    refine ⟨?_, ?_, ?_⟩
    · rw [hb]
      simp only [hch]
      constructor
      · intro hcon
        cases hcon
      · rintro ⟨⟨c, hc, hcs⟩, _⟩
        exact absurd hcs (hnosolved c hc)
    · intro hcon
      rw [hb] at hcon
      cases hcon
    · intro _
      rw [hb]
  | some b =>
    rw [hscan] at hb
    simp only [] at hb
    have hmem : b ∈ c0 :: cs ∧ b.outcome ≠ [] := by
      rcases solverScan_mem c0.player (c0 :: cs) none true b (by rw [hscan]) with h | h
      · exact h
      · cases h
    have hmax : ∀ c ∈ c0 :: cs, c.outcome ≠ [] →
        vecAt c.outcome c0.player ≤ vecAt b.outcome c0.player :=
      (solverScan_max c0.player (c0 :: cs) none true b (by rw [hscan])).2
    have hallS : allS = true ↔ ∀ c ∈ c0 :: cs, c.outcome ≠ [] := by
      have := solverScan_allS c0.player (c0 :: cs) none true
      rw [hscan] at this
      simpa using this
    by_cases hcond : allS = true ∨ vecAt b.outcome c0.player = maxU
    · rw [if_pos hcond] at hb
      refine ⟨?_, ?_, ?_⟩
      · rw [hb]
        simp only [hch]
        constructor
        · intro _
          refine ⟨⟨b, hmem.1, hmem.2⟩, ?_⟩
          rcases hcond with hc1 | hc2
          · exact Or.inl (hallS.mp hc1)
          · exact Or.inr ⟨b, hmem.1, hmem.2, hmax, hc2⟩
        · intro _
          trivial
      · intro _
        rw [hb]
        exact ⟨b, by rw [hch]; exact hmem.1, hmem.2, by rw [hch]; exact hmax, rfl⟩
      · intro hcon
        rw [hb] at hcon
        cases hcon
    · rw [if_neg hcond] at hb
      push_neg at hcond
      refine ⟨?_, ?_, ?_⟩
      · rw [hb]
        simp only [hch]
        constructor
        · intro hcon
          cases hcon
        · rintro ⟨⟨c, hc, hcs⟩, hall | ⟨b2, hb2, hb2o, hb2max, hb2u⟩⟩
          · exact absurd (hallS.mpr hall) (by simpa using hcond.1)
          · have h1 : vecAt b2.outcome c0.player ≤ vecAt b.outcome c0.player :=
              hmax b2 hb2 hb2o
            have h2 : vecAt b.outcome c0.player ≤ vecAt b2.outcome c0.player :=
              hb2max b hmem.1 hmem.2
            have : vecAt b.outcome c0.player = maxU := by
              rw [le_antisymm h2 h1]
              exact hb2u
            exact absurd this hcond.2
      · intro hcon
        rw [hb] at hcon
        cases hcon
      · intro _
        rw [hb]

/-- Claim C8 (counterexample): Value is not strictly decreasing in
explore_count with the other fields held fixed: for an unproven node
with prior 1 and total_reward 2, under uct_c = 1 and parent count 1,
the value at explore_count 0 is 1 and at explore_count 1 it is 2.5, an
increase; and Value is not strictly increasing in prior when
parent_explore_count is 0: priors 1/4 and 3/4 give the same value.  -/
theorem C8_counterexample :
    (SearchNode.mk 0 0 1 0 2 [] []).Value 1 1 < (SearchNode.mk 0 0 1 1 2 [] []).Value 1 1 ∧
    (SearchNode.mk 0 0 (1/4) 0 0 [] []).Value 0 5 =
      (SearchNode.mk 0 0 (3/4) 0 0 [] []).Value 0 5 := by
  constructor <;>
    norm_num [SearchNode.Value, SearchNode.outcome, SearchNode.explore_count,
      SearchNode.total_reward, SearchNode.prior, Real.sqrt_one, Real.sqrt_zero]

/-- Claim C8 (amended): for an unproven node, Value is strictly
increasing in prior provided uct_c is positive and the parent has been
visited at least once, and strictly decreasing in explore_count on the
range explore_count ≥ 1 provided additionally the prior is positive and
total_reward is non-negative.  -/
theorem C8_puct_monotonicity :
    (∀ (ac pl : ℤ) (tr : ℝ) (ec : ℕ) (oc : List SearchNode) (pc : ℕ) (u p₁ p₂ : ℝ),
      0 < u → 1 ≤ pc → p₁ < p₂ →
      (SearchNode.mk ac pl p₁ ec tr [] oc).Value pc u <
        (SearchNode.mk ac pl p₂ ec tr [] oc).Value pc u) ∧
    (∀ (ac pl : ℤ) (pr tr : ℝ) (oc : List SearchNode) (pc : ℕ) (u : ℝ) (c₁ c₂ : ℕ),
      0 < u → 0 < pr → 1 ≤ pc → 0 ≤ tr → 1 ≤ c₁ → c₁ < c₂ →
      (SearchNode.mk ac pl pr c₂ tr [] oc).Value pc u <
        (SearchNode.mk ac pl pr c₁ tr [] oc).Value pc u) := by
  have hsq : ∀ pc : ℕ, 1 ≤ pc → 0 < Real.sqrt pc := by
    intro pc hpc
    apply Real.sqrt_pos.mpr
    exact_mod_cast Nat.lt_of_lt_of_le Nat.zero_lt_one hpc
  constructor
  · intro ac pl tr ec oc pc u p₁ p₂ hu hpc hp
    simp only [SearchNode.Value, SearchNode.outcome, SearchNode.explore_count,
      SearchNode.total_reward, SearchNode.prior, ne_eq, not_true_eq_false, if_false,
      not_false_eq_true, if_true]
    have hden : (0:ℝ) < (ec : ℝ) + 1 := by positivity
    have hnum : u * p₁ * Real.sqrt pc < u * p₂ * Real.sqrt pc :=
      mul_lt_mul_of_pos_right (mul_lt_mul_of_pos_left hp hu) (hsq pc hpc)
    have hdiv : u * p₁ * Real.sqrt pc / ((ec : ℝ) + 1) <
        u * p₂ * Real.sqrt pc / ((ec : ℝ) + 1) := (div_lt_div_right hden).mpr hnum
    linarith
  · intro ac pl pr tr oc pc u c₁ c₂ hu hpr hpc htr hc1 hcc
    have h1 : (SearchNode.mk ac pl pr c₁ tr [] oc).Value pc u =
        tr / (c₁ : ℝ) + u * pr * Real.sqrt pc / ((c₁ : ℝ) + 1) := by
      simp only [SearchNode.Value, SearchNode.outcome, SearchNode.explore_count,
        SearchNode.total_reward, SearchNode.prior]
      rw [if_neg (by simp), if_pos (by omega)]
    have h2 : (SearchNode.mk ac pl pr c₂ tr [] oc).Value pc u =
        tr / (c₂ : ℝ) + u * pr * Real.sqrt pc / ((c₂ : ℝ) + 1) := by
      simp only [SearchNode.Value, SearchNode.outcome, SearchNode.explore_count,
        SearchNode.total_reward, SearchNode.prior]
      rw [if_neg (by simp), if_pos (by omega)]
    rw [h1, h2]
    have hc1R : (0:ℝ) < (c₁ : ℝ) := by exact_mod_cast Nat.lt_of_lt_of_le Nat.zero_lt_one hc1
    have hccR : (c₁ : ℝ) < (c₂ : ℝ) := by exact_mod_cast hcc
    have hE : 0 < u * pr * Real.sqrt pc := by
      have := hsq pc hpc
      positivity
    have hm : tr / (c₂ : ℝ) ≤ tr / (c₁ : ℝ) :=
      div_le_div_of_nonneg_left htr hc1R (le_of_lt hccR)
    have hE2 : u * pr * Real.sqrt pc / ((c₂ : ℝ) + 1) <
        u * pr * Real.sqrt pc / ((c₁ : ℝ) + 1) :=
      div_lt_div_of_pos_left hE (by linarith) (by linarith)
    linarith


/-- Witness for the amended C8 theorem at concrete inputs: priors 1/2
versus 1 with parent count 1, and explore counts 2 versus 1 with
total_reward 0.  -/
theorem C8_puct_monotonicity_witness :
    (SearchNode.mk 0 0 (1/2) 0 0 [] []).Value 1 1 < (SearchNode.mk 0 0 1 0 0 [] []).Value 1 1 ∧
    (SearchNode.mk 0 0 1 2 0 [] []).Value 1 1 < (SearchNode.mk 0 0 1 1 0 [] []).Value 1 1 :=
  ⟨C8_puct_monotonicity.1 0 0 0 0 [] 1 1 (1/2) 1 (by norm_num) (by norm_num) (by norm_num),
   C8_puct_monotonicity.2 0 0 1 0 [] 1 1 1 2 (by norm_num) (by norm_num) (by norm_num)
     (by norm_num) (by norm_num) (by norm_num)⟩

theorem CompareFinal_iff (a b : SearchNode) :
    a.CompareFinal b ↔
      (finalOut a < finalOut b ∨
        (finalOut a = finalOut b ∧
          (a.explore_count < b.explore_count ∨
            (a.explore_count = b.explore_count ∧ a.total_reward < b.total_reward)))) := by
  unfold SearchNode.CompareFinal
  by_cases h1 : finalOut a ≠ finalOut b
  · rw [if_pos h1]
    constructor
    · exact Or.inl
    · rintro (h | ⟨h2, _⟩)
      · exact h
      · exact absurd h2 h1
  · rw [if_neg h1]
    push_neg at h1
    by_cases h2 : a.explore_count ≠ b.explore_count
    · rw [if_pos h2]
      constructor
      · intro h
        exact Or.inr ⟨h1, Or.inl h⟩
      · rintro (h | ⟨_, h | ⟨h3, _⟩⟩)
        · exact absurd h1 (ne_of_lt h)
        · exact h
        · exact absurd h3 h2
    · rw [if_neg h2]
      push_neg at h2
      constructor
      · intro h
        exact Or.inr ⟨h1, Or.inr ⟨h2, h⟩⟩
      · rintro (h | ⟨_, h | ⟨_, h3⟩⟩)
        · exact absurd h1 (ne_of_lt h)
        · exact absurd h2 (Nat.ne_of_lt h)
        · exact h3

theorem CompareFinal_irrefl (a : SearchNode) : ¬ a.CompareFinal a := by
  rw [CompareFinal_iff]
  rintro (h | ⟨_, h | ⟨_, h⟩⟩) <;> exact lt_irrefl _ h

theorem CompareFinal_trans (a b c : SearchNode) (h1 : a.CompareFinal b)
    (h2 : b.CompareFinal c) : a.CompareFinal c := by
  rw [CompareFinal_iff] at h1 h2 ⊢
  rcases h1 with h1 | ⟨e1, h1⟩ <;> rcases h2 with h2 | ⟨e2, h2⟩
  · exact Or.inl (lt_trans h1 h2)
  · exact Or.inl (by rw [← e2]; exact h1)
  · exact Or.inl (by rw [e1]; exact h2)
  · refine Or.inr ⟨e1.trans e2, ?_⟩
    rcases h1 with h1 | ⟨f1, h1⟩ <;> rcases h2 with h2 | ⟨f2, h2⟩
    · exact Or.inl (lt_trans h1 h2)
    · exact Or.inl (by rw [← f2]; exact h1)
    · exact Or.inl (by rw [f1]; exact h2)
    · exact Or.inr ⟨f1.trans f2, lt_trans h1 h2⟩

theorem CompareFinal_asymm (a b : SearchNode) (h : a.CompareFinal b) : ¬ b.CompareFinal a :=
  fun h2 => CompareFinal_irrefl a (CompareFinal_trans a b a h h2)

theorem CompareFinal_total (a b : SearchNode) (h1 : ¬ a.CompareFinal b)
    (h2 : ¬ b.CompareFinal a) :
    finalOut a = finalOut b ∧ a.explore_count = b.explore_count ∧
      a.total_reward = b.total_reward := by
  rw [CompareFinal_iff] at h1 h2
  push_neg at h1 h2
  have e1 : finalOut a = finalOut b := le_antisymm h2.1 h1.1
  obtain ⟨-, hh1⟩ := h1
  obtain ⟨-, hh2⟩ := h2
  have e2 : a.explore_count = b.explore_count :=
    le_antisymm (hh2 e1.symm).1 (hh1 e1).1
  exact ⟨e1, e2, le_antisymm ((hh2 e1.symm).2 e2.symm) ((hh1 e1).2 e2)⟩

theorem CompareFinal_negtrans (a b c : SearchNode) (h1 : ¬ a.CompareFinal b)
    (h2 : ¬ b.CompareFinal c) : ¬ a.CompareFinal c := by
  intro hac
  by_cases hba : b.CompareFinal a
  · exact h2 (CompareFinal_trans b a c hba hac)
  · obtain ⟨e1, e2, e3⟩ := CompareFinal_total a b h1 hba
    rw [CompareFinal_iff] at hac
    apply h2
    rw [CompareFinal_iff, ← e1, ← e2, ← e3]
    exact hac


theorem maxElem_spec :
    ∀ (cs : List SearchNode) (c0 : SearchNode),
      ∃ l₁ l₂, c0 :: cs = l₁ ++ maxElem c0 cs :: l₂ ∧
        (∀ y ∈ l₁, y.CompareFinal (maxElem c0 cs)) ∧
        (∀ x ∈ c0 :: cs, ¬ (maxElem c0 cs).CompareFinal x) := by
  intro cs
  induction cs with
  | nil =>
    intro c0
    refine ⟨[], [], rfl, by simp, ?_⟩
    intro x hx
    rcases List.mem_cons.mp hx with rfl | hx
    · exact CompareFinal_irrefl x
    · cases hx
  | cons x rest ih =>
    intro c0
    by_cases hlt : c0.CompareFinal x
    · have hm : maxElem c0 (x :: rest) = maxElem x rest := by
        simp only [maxElem, if_pos hlt]
      obtain ⟨l₁, l₂, hsplit, hbelow, hmax⟩ := ih x
      have hc0m : c0.CompareFinal (maxElem x rest) := by
        cases l₁ with
        | nil =>
          have : maxElem x rest = x := by
            have := congrArg (fun l => l.head?) hsplit
            simpa using this.symm
          rw [this]
          exact hlt
        | cons h1 t1 =>
          have hhead : h1 = x := by
            have := congrArg (fun l => l.head?) hsplit
            simpa using this.symm
          have hx1 : x ∈ h1 :: t1 := by rw [hhead]; exact List.mem_cons_self x t1
          exact CompareFinal_trans c0 x (maxElem x rest) hlt (hbelow x hx1)
      refine ⟨c0 :: l₁, l₂, ?_, ?_, ?_⟩
      · rw [hm, List.cons_append, ← hsplit]
      · intro y hy
        rcases List.mem_cons.mp hy with rfl | hy2
        · rw [hm]; exact hc0m
        · rw [hm]; exact hbelow y hy2
      · intro z hz
        rcases List.mem_cons.mp hz with rfl | hz2
        · rw [hm]; exact CompareFinal_asymm z (maxElem x rest) hc0m
        · rw [hm]; exact hmax z hz2
    · have hm : maxElem c0 (x :: rest) = maxElem c0 rest := by
        simp only [maxElem, if_neg hlt]
      obtain ⟨l₁, l₂, hsplit, hbelow, hmax⟩ := ih c0
      cases l₁ with
      | nil =>
        have hmc0 : maxElem c0 rest = c0 := by
          have := congrArg (fun l => l.head?) hsplit
          simpa using this.symm
        refine ⟨[], x :: rest, by rw [hm, hmc0]; rfl, by simp, ?_⟩
        intro z hz
        rw [hm, hmc0]
        rcases List.mem_cons.mp hz with rfl | hz2
        · exact CompareFinal_irrefl z
        · rcases List.mem_cons.mp hz2 with rfl | hz3
          · exact hlt
          · have hz4 : z ∈ c0 :: rest := List.mem_cons_of_mem c0 hz3
            have := hmax z hz4
            rw [hmc0] at this
            exact this
      | cons h1 t1 =>
        have hhead : h1 = c0 := by
          have := congrArg (fun l => l.head?) hsplit
          simpa using this.symm
        have hc0mem : c0 ∈ h1 :: t1 := by rw [hhead]; exact List.mem_cons_self c0 t1
        have hc0m : c0.CompareFinal (maxElem c0 rest) := hbelow c0 hc0mem
        have htail : t1 ++ maxElem c0 rest :: l₂ = rest := by
          have := congrArg (fun l => l.tail) hsplit
          simpa [hhead] using this.symm
        have hxm : x.CompareFinal (maxElem c0 rest) := by
          by_contra hxm
          exact (CompareFinal_negtrans c0 x (maxElem c0 rest) hlt hxm) hc0m
        refine ⟨c0 :: x :: t1, l₂, ?_, ?_, ?_⟩
        · rw [hm]
          show c0 :: x :: rest = c0 :: x :: (t1 ++ maxElem c0 rest :: l₂)
          rw [htail]
        · intro y hy
          rw [hm]
          rcases List.mem_cons.mp hy with rfl | hy2
          · exact hc0m
          · rcases List.mem_cons.mp hy2 with rfl | hy3
            · exact hxm
            · exact hbelow y (List.mem_cons_of_mem h1 hy3)
        · intro z hz
          rw [hm]
          rcases List.mem_cons.mp hz with rfl | hz2
          · exact hmax z (List.mem_cons_self z rest)
          · rcases List.mem_cons.mp hz2 with rfl | hz3
            · exact CompareFinal_asymm z (maxElem c0 rest) hxm
            · exact hmax z (List.mem_cons_of_mem c0 hz3)


/-- Claim C10: BestChild requires non-empty children (none exactly on
an empty children list, where the source dereferences the end
iterator); on a non-empty list it returns the earliest child among
those maximal under the ascending (pseudo-outcome, explore_count,
total_reward) order: every strictly earlier child compares strictly
below it (in particular no earlier child ties it on all three fields),
and no child at all compares strictly above it; and Step returns
exactly that child's action with probability 1.  -/
theorem C10_best_child_first_max (n : SearchNode) :
    (n.BestChild = none ↔ n.children = []) ∧
    (∀ m, n.BestChild = some m →
      m ∈ n.children ∧
      (∃ l₁ l₂, n.children = l₁ ++ m :: l₂ ∧
        (∀ y ∈ l₁, y.CompareFinal m) ∧
        (∀ y ∈ l₁, ¬(finalOut y = finalOut m ∧ y.explore_count = m.explore_count ∧
          y.total_reward = m.total_reward))) ∧
      (∀ x ∈ n.children, ¬ m.CompareFinal x)) ∧
    (∀ {σ : Type} (G : GameM σ) (E : EvalM σ) (O : OracleM) (bot : MCTSBot) (s0 : σ)
      (root : SearchNode) (t : ℕ) (m : SearchNode),
      MCTSearch G E O bot s0 = some (root, t) → root.BestChild = some m →
      Step G E O bot s0 = some ([(m.action, 1)], m.action)) := by
  refine ⟨?_, ?_, ?_⟩
  · unfold SearchNode.BestChild
    cases hch : n.children with
    | nil => simp
    | cons c0 cs => simp
  · intro m hm
    unfold SearchNode.BestChild at hm
    rcases hch : n.children with _ | ⟨c0, cs⟩
    · rw [hch] at hm
      cases hm
    · rw [hch] at hm
      injection hm with hm
      obtain ⟨l₁, l₂, hsplit, hbelow, hmax⟩ := maxElem_spec cs c0
      rw [hm] at hsplit hbelow hmax
      refine ⟨?_, ⟨l₁, l₂, hsplit, hbelow, ?_⟩, ?_⟩
      · rw [hsplit]
        exact List.mem_append_right l₁ (List.mem_cons_self m l₂)
      · intro y hy ⟨e1, e2, e3⟩
        have := hbelow y hy
        rw [CompareFinal_iff, e1, e2, e3] at this
        rcases this with h | ⟨_, h | ⟨_, h⟩⟩ <;> exact lt_irrefl _ h
      · intro x hx
        exact hmax x hx
  · intro σ G E O bot s0 root t m hs hm
    unfold Step
    simp only [hs, hm]

/-- Claim C9: when a Step call completes with a root that has children,
the returned action is the action of a root child that is maximal under
the ascending lexicographic (pseudo-outcome, explore_count,
total_reward) order, and the exported distribution is the single pair
(action, 1).  -/
theorem C9_step_returns_lex_max {σ : Type} (G : GameM σ) (E : EvalM σ) (O : OracleM)
    (bot : MCTSBot) (s0 : σ) (root : SearchNode) (t : ℕ)
    (hs : MCTSearch G E O bot s0 = some (root, t)) (hch : root.children ≠ []) :
    ∃ b, root.BestChild = some b ∧ b ∈ root.children ∧
      (∀ x ∈ root.children, ¬ b.CompareFinal x) ∧
      Step G E O bot s0 = some ([(b.action, 1)], b.action) := by
  rcases hc : root.children with _ | ⟨c0, cs⟩
  · exact absurd hc hch
  · have hbc : root.BestChild = some (maxElem c0 cs) := by
      unfold SearchNode.BestChild
      rw [hc]
    obtain ⟨l₁, l₂, hsplit, _, hmax⟩ := maxElem_spec cs c0
    refine ⟨maxElem c0 cs, hbc, ?_, ?_, ?_⟩
    · rw [hsplit]
      exact List.mem_append_right l₁ (List.mem_cons_self _ l₂)
    · intro x hx
      exact hmax x hx
    · unfold Step
      simp only [hs, hbc]


theorem bestChild_root4 : n7root4.BestChild = some n7N20 := by
  have hcf : n7N10c.CompareFinal n7N20 := by
    rw [CompareFinal_iff]
    refine Or.inl ?_
    norm_num [finalOut, n7N10c, n7N20, vecAt, SearchNode.outcome, SearchNode.player,
      List.cons_ne_nil]
  unfold SearchNode.BestChild
  have hch : n7root4.children = [n7N10c, n7N20] := rfl
  simp only [hch, maxElem, if_pos hcf]

/-- Witness for the C9 theorem: the completed G7 Step call with four
simulations returns action 20, the action of the root child that is
maximal under the final ordering (the proven child is a loss for the
root player, so the unexplored sibling wins the comparison).  -/
theorem C9_step_returns_lex_max_witness :
    ∃ b, n7root4.BestChild = some b ∧ b ∈ n7root4.children ∧
      (∀ x ∈ n7root4.children, ¬ b.CompareFinal x) ∧
      Step G7 E7 O7 (bot7 4) 0 = some ([(b.action, 1)], b.action) :=
  C9_step_returns_lex_max G7 E7 O7 (bot7 4) 0 n7root4 2 loop4
    (by simp [n7root4, SearchNode.children])

/-- Witness for the C10 theorem at the concrete G7 root after four
simulations, discharging its inner hypotheses at BestChild = n7N20.  -/
theorem C10_best_child_first_max_witness :
    n7N20 ∈ n7root4.children ∧
    (∃ l₁ l₂, n7root4.children = l₁ ++ n7N20 :: l₂ ∧
      (∀ y ∈ l₁, y.CompareFinal n7N20) ∧
      (∀ y ∈ l₁, ¬(finalOut y = finalOut n7N20 ∧ y.explore_count = n7N20.explore_count ∧
        y.total_reward = n7N20.total_reward))) ∧
    (∀ x ∈ n7root4.children, ¬ n7N20.CompareFinal x) :=
  (C10_best_child_first_max n7root4).2.1 n7N20 bestChild_root4


/-- Claim C3 (amended): with max_simulations = 1, for every game,
evaluator, oracle and input state, the search returns a root with empty
children (the root is NOT expanded: the single simulation stops at the
unvisited root) and explore_count 1; BestChild then has nothing to
return and the modelled Step is none.  -/
theorem C3_amended_no_expansion {σ : Type} (G : GameM σ) (E : EvalM σ) (O : OracleM)
    (bot : MCTSBot) (s0 : σ) (hms : bot.max_simulations = 1) :
    ∃ r, MCTSearch G E O bot s0 = some (r, 0) ∧ r.children = [] ∧ r.explore_count = 1 ∧
      r.BestChild = none ∧ Step G E O bot s0 = none := by
  have hatp : ApplyTreePolicy G E O bot.uct_c (mkRoot G s0) s0 0 =
      some ([], mkRoot G s0, s0, 0) := by
    rw [ApplyTreePolicy]
    rw [if_pos (show G.isTerminal s0 = true ∨ (mkRoot G s0).explore_count = 0 from Or.inr rfl)]
  have hstep : ∃ r, simStep G E O bot s0 (mkRoot G s0) 0 0 = some (r, 0) ∧
      r.children = [] ∧ r.explore_count = 1 := by
    unfold simStep
    rw [hatp]
    refine ⟨_, rfl, ?_, ?_⟩
    · rw [backupAlong, (backupNode_fields _ _ _ _).1]
      split <;> simp [SearchNode.setOutcome, mkRoot, SearchNode.children]
    · rw [backupAlong, (backupNode_fields _ _ _ _).2.1]
      split <;> simp [SearchNode.setOutcome, mkRoot, SearchNode.explore_count]
  obtain ⟨r, hr, hrch, hrec⟩ := hstep
  have hbc : r.BestChild = none := by
    unfold SearchNode.BestChild
    simp only [hrch]
  have hms2 : MCTSearch G E O bot s0 = some (r, 0) := by
    unfold MCTSearch
    rw [hms, show (1:ℕ) = 0 + 1 from rfl, mctsLoop, hr]
    simp only [mctsLoop]
    split <;> rfl
  refine ⟨r, hms2, hrch, hrec, hbc, ?_⟩
  unfold Step
  simp only [hms2, hbc]

/-- Witness for the amended C3 theorem on the concrete G7 game.  -/
theorem C3_amended_no_expansion_witness :
    ∃ r, MCTSearch G7 E7 O7 (bot7 1) 0 = some (r, 0) ∧ r.children = [] ∧
      r.explore_count = 1 ∧ r.BestChild = none ∧ Step G7 E7 O7 (bot7 1) 0 = none :=
  C3_amended_no_expansion G7 E7 O7 (bot7 1) 0 rfl


theorem chooseChild_children_ne {σ : Type} (G : GameM σ) (O : OracleM) (u : ℝ)
    (m : SearchNode) (s : σ) (t : ℕ) (i t1 : ℕ)
    (h : chooseChild G O u m s t = some (i, t1)) : m.children ≠ [] := by
  intro hch
  unfold chooseChild at h
  rw [hch] at h
  split at h
  · rcases hsa : sampleChanceAction (G.chanceOutcomes s) (O.draw t) with _ | a
    · rw [hsa] at h
      cases h
    · rw [hsa] at h
      simp only [findChildIdx] at h
      cases h
  · simp only [selectIdx, selectFrom, Option.map_none'] at h
    cases h

theorem ApplyTreePolicy_cases {σ : Type} (G : GameM σ) (E : EvalM σ) (O : OracleM) (u : ℝ)
    (n : SearchNode) (s : σ) (t : ℕ) (p : List ℕ) (n' : SearchNode) (s' : σ) (t' : ℕ)
    (h : ApplyTreePolicy G E O u n s t = some (p, n', s', t')) :
    ((G.isTerminal s = true ∨ n.explore_count = 0) ∧ p = [] ∧ n' = n ∧ s' = s ∧ t' = t) ∨
    (¬(G.isTerminal s = true ∨ n.explore_count = 0) ∧ n.children = [] ∧
      ∃ i c, chooseChild G O u
          (n.setChildren (expandKids (O.shuffle t (E.Prior s)) (G.currentPlayer s))) s (t + 1) =
            some (i, t') ∧
        (expandKids (O.shuffle t (E.Prior s)) (G.currentPlayer s)).get? i = some c ∧
        p = [i] ∧
        n' = n.setChildren (expandKids (O.shuffle t (E.Prior s)) (G.currentPlayer s)) ∧
        s' = G.applyAction s c.action) ∨
    (¬(G.isTerminal s = true ∨ n.explore_count = 0) ∧ n.children ≠ [] ∧
      ∃ i t1 c p2 c2, chooseChild G O u n s t = some (i, t1) ∧
        n.children.get? i = some c ∧
        ApplyTreePolicy G E O u c (G.applyAction s c.action) t1 = some (p2, c2, s', t') ∧
        p = i :: p2 ∧ n' = n.setChildAt i c2) := by
  rw [ApplyTreePolicy] at h
  by_cases hstop : G.isTerminal s = true ∨ n.explore_count = 0
  · rw [if_pos hstop] at h
    injection h with h
    refine Or.inl ⟨hstop, ?_⟩
    injection h with h1 h
    injection h with h2 h
    injection h with h3 h4
    exact ⟨h1.symm, h2.symm, h3.symm, h4.symm⟩
  · rw [if_neg hstop] at h
    rcases hch : n.children with _ | ⟨c0, cs⟩
    · rw [hch] at h
      simp only [] at h
      rcases hcc : chooseChild G O u
          (n.setChildren (expandKids (O.shuffle t (E.Prior s)) (G.currentPlayer s))) s (t + 1)
        with _ | ⟨i, t1⟩
      · rw [hcc] at h
        cases h
      · rw [hcc] at h
        simp only [children_setChildren] at h
        rcases hgk : (expandKids (O.shuffle t (E.Prior s)) (G.currentPlayer s)).get? i
          with _ | c
        · rw [hgk] at h
          cases h
        · rw [hgk] at h
          simp only [] at h
          injection h with h
          injection h with h1 h
          injection h with h2 h
          injection h with h3 h4
          exact Or.inr (Or.inl ⟨hstop, rfl, i, c, by rw [h4], hgk, h1.symm, h2.symm, h3.symm⟩)
    · rw [hch] at h
      simp only [] at h
      rcases hcc : chooseChild G O u n s t with _ | ⟨i, t1⟩
      · rw [← hch] at h
        rw [hcc] at h
        cases h
      · rw [← hch] at h
        rw [hcc] at h
        simp only [] at h
        by_cases hilen : i < n.children.length
        · rw [dif_pos hilen] at h
          rcases hrec : ApplyTreePolicy G E O u (n.children.get ⟨i, hilen⟩)
              (G.applyAction s (n.children.get ⟨i, hilen⟩).action) t1 with _ | ⟨p2, c2, s2, t2⟩
          · rw [hrec] at h
            cases h
          · rw [hrec] at h
            simp only [] at h
            injection h with h
            injection h with h1 h
            injection h with h2 h
            injection h with h3 h4
            refine Or.inr (Or.inr ⟨hstop, by simp,
              i, t1, n.children.get ⟨i, hilen⟩, p2, c2, rfl,
              by rw [← hch]; exact List.get?_eq_get hilen, ?_, h1.symm, h2.symm⟩)
            rw [hrec, h3, h4]
        · rw [dif_neg hilen] at h
          cases h


theorem nodeAt_cons (n : SearchNode) (i : ℕ) (q : List ℕ) (c : SearchNode)
    (hgi : n.children.get? i = some c) : nodeAt n (i :: q) = nodeAt c q := by
  simp only [nodeAt, hgi]

theorem stateAt_cons {σ : Type} (G : GameM σ) (s : σ) (n : SearchNode) (i : ℕ)
    (q : List ℕ) (c : SearchNode) (hgi : n.children.get? i = some c) :
    stateAt G s n (i :: q) = stateAt G (G.applyAction s c.action) c q := by
  simp only [stateAt, hgi]

theorem set_ne_nil {α : Type} (l : List α) (i : ℕ) (a : α) (h : l ≠ []) :
    l.set i a ≠ [] := by
  intro hcon
  have hl : l.length = 0 := by
    simpa [List.length_set] using congrArg List.length hcon
  exact h (List.length_eq_zero.mp hl)

theorem expandKids_get (l : List (ℤ × ℝ)) (pl : ℤ) (j : ℕ) (c : SearchNode)
    (h : (expandKids l pl).get? j = some c) :
    c.explore_count = 0 ∧ c.children = [] := by
  rw [expandKids, List.get?_map] at h
  rcases hg : l.get? j with _ | ap
  · rw [hg] at h
    cases h
  · rw [hg, Option.map_some'] at h
    injection h with h1
    rw [← h1]
    exact ⟨rfl, rfl⟩

theorem goodNode_lift {σ : Type} (G : GameM σ) (s1 s2 : σ) (r1 r2 : SearchNode)
    (q1 q2 : List ℕ) (x : SearchNode)
    (hst : stateAt G s2 r2 q2 = stateAt G s1 r1 q1)
    (h : goodNode G s1 r1 q1 x) : goodNode G s2 r2 q2 x := by
  refine ⟨?_, h.2.1, ?_⟩
  · intro hc
    rcases h.1 hc with h1 | ⟨sq, hsq, ht⟩
    · exact Or.inl h1
    · exact Or.inr ⟨sq, by rw [hst]; exact hsq, ht⟩
  · intro sq hsq ht
    exact h.2.2 sq (by rw [← hst]; exact hsq) ht

theorem goodNode_mid {σ : Type} (G : GameM σ) (s : σ) (r : SearchNode)
    (p q : List ℕ) (x : SearchNode) (h : goodNode G s r q x) : midNode G s r p q x :=
  ⟨h.1, fun hc => Or.inl (h.2.1 hc), h.2.2⟩

theorem midNode_lift {σ : Type} (G : GameM σ) (s1 s2 : σ) (r1 r2 : SearchNode)
    (p1 p2c q1 q2 : List ℕ) (x : SearchNode)
    (hst : stateAt G s2 r2 q2 = stateAt G s1 r1 q1)
    (hple : pathLe q1 p1 → pathLe q2 p2c)
    (hne : q1 ≠ p1 → q2 ≠ p2c)
    (h : midNode G s1 r1 p1 q1 x) : midNode G s2 r2 p2c q2 x := by
  refine ⟨?_, ?_, ?_⟩
  · intro hc
    rcases h.1 hc with h1 | ⟨sq, hsq, ht⟩
    · exact Or.inl h1
    · exact Or.inr ⟨sq, by rw [hst]; exact hsq, ht⟩
  · intro hc
    rcases h.2.1 hc with h1 | ⟨h1, h2, h3, sq, hsq, ht⟩
    · exact Or.inl h1
    · exact Or.inr ⟨h1, hple h2, hne h3, sq, by rw [hst]; exact hsq, ht⟩
  · intro sq hsq ht
    exact h.2.2 sq (by rw [← hst]; exact hsq) ht

theorem backupAlong_action (maxU : ℝ) (rets : List ℝ) (sv0 setF : Bool) (p : List ℕ)
    (n : SearchNode) : (backupAlong maxU rets sv0 setF n p).1.action = n.action := by
  obtain ⟨x', h1, ha, _⟩ := backupAlong_frame maxU rets sv0 setF p n [] n rfl
  have h2 : some (backupAlong maxU rets sv0 setF n p).1 = some x' := h1
  injection h2 with h2
  rw [h2]
  exact ha

theorem ApplyTreePolicy_frame {σ : Type} (G : GameM σ) (E : EvalM σ) (O : OracleM) (u : ℝ) :
    ∀ (p : List ℕ) (n : SearchNode) (s : σ) (t : ℕ) (n' : SearchNode) (s' : σ) (t' : ℕ),
      ApplyTreePolicy G E O u n s t = some (p, n', s', t') →
      ∀ (q : List ℕ) (x : SearchNode), nodeAt n q = some x →
        ∃ x', nodeAt n' q = some x' ∧
          x'.action = x.action ∧ x'.player = x.player ∧ x'.prior = x.prior ∧
          x'.explore_count = x.explore_count ∧ x'.total_reward = x.total_reward ∧
          x'.outcome = x.outcome ∧
          (x'.children.length = x.children.length ∨
            (x.children = [] ∧ x'.children ≠ [] ∧ 1 ≤ x.explore_count ∧
              pathLe q p ∧ q ≠ p ∧
              ∃ sq, stateAt G s n q = some sq ∧ G.isTerminal sq = false)) := by
  intro p
  induction p with
  | nil =>
    intro n s t n' s' t' h q x hx
    rcases ApplyTreePolicy_cases G E O u n s t [] n' s' t' h with
      ⟨_, _, rfl, _, _⟩ | ⟨_, _, i, c, _, _, hp, _⟩ | ⟨_, _, i, t1, c, p2, c2, _, _, _, hp, _⟩
    · exact ⟨x, hx, rfl, rfl, rfl, rfl, rfl, rfl, Or.inl rfl⟩
    · cases hp
    · cases hp
  | cons i0 p2 ih =>
    intro n s t n' s' t' h q x hx
    rcases ApplyTreePolicy_cases G E O u n s t (i0 :: p2) n' s' t' h with
      ⟨_, hp, _, _, _⟩ | ⟨hstop, hch, i, c, hcc, hgk, hp, hn, hs⟩ |
      ⟨hstop, hch, i, t1, c, pp2, c2, hcc, hgi, hrec, hp, hn⟩
    · cases hp
    · -- expansion: n' = n with fresh children, path [i]
      injection hp with hp1 hp2
      subst hp1
      have hkz : (expandKids (O.shuffle t (E.Prior s)) (G.currentPlayer s)) ≠ [] := by
        have := chooseChild_children_ne G O u
          (n.setChildren (expandKids (O.shuffle t (E.Prior s)) (G.currentPlayer s))) s (t + 1)
          i0 t' hcc
        rw [children_setChildren] at this
        exact this
      have hec : n.explore_count ≠ 0 := by
        intro hz
        exact hstop (Or.inr hz)
      cases q with
      | nil =>
        have hnx : n = x := by simpa [nodeAt] using hx
        subst hnx
        refine ⟨n', by rfl, ?_⟩
        rw [hn]
        refine ⟨action_setChildren _ _, player_setChildren _ _, prior_setChildren _ _,
          explore_setChildren _ _, reward_setChildren _ _, outcome_setChildren _ _, ?_⟩
        refine Or.inr ⟨hch, ?_, Nat.one_le_iff_ne_zero.mpr hec, pathLe_nil _,
          by simp [hp2], s, rfl, ?_⟩
        · rw [children_setChildren]
          exact hkz
        · cases hterm : G.isTerminal s with
          | false => rfl
          | true => exact absurd (Or.inl hterm) hstop
      | cons j q' =>
        simp only [nodeAt, hch] at hx
        simp at hx
    · -- recursion into child i
      injection hp with hp1 hp3
      subst hp1
      subst hp3
      cases q with
      | nil =>
        have hnx : n = x := by simpa [nodeAt] using hx
        subst hnx
        refine ⟨n', by rfl, ?_⟩
        rw [hn]
        cases n with
        | mk a pl pr ec tr oc ch =>
          refine ⟨rfl, rfl, rfl, rfl, rfl, rfl, Or.inl ?_⟩
          simp [SearchNode.setChildAt, SearchNode.setChildren, SearchNode.children,
            List.length_set]
      | cons j q' =>
        simp only [nodeAt] at hx
        by_cases hji : j = i0
        · subst hji
          rw [hgi] at hx
          simp only [] at hx
          obtain ⟨x2, hx2, hf⟩ := ih c (G.applyAction s c.action) t1 c2 s' t' hrec q' x hx
          have hget2 : n'.children.get? j = some c2 := by
            rw [hn, children_setChildAt, List.get?_set_eq, hgi]
            rfl
          refine ⟨x2, ?_, hf.1, hf.2.1, hf.2.2.1, hf.2.2.2.1, hf.2.2.2.2.1, hf.2.2.2.2.2.1, ?_⟩
          · simp only [nodeAt, hget2]
            exact hx2
          · rcases hf.2.2.2.2.2.2 with hl | ⟨h1, h2, h3, h4, h5, sq, hsq, hterm⟩
            · exact Or.inl hl
            · refine Or.inr ⟨h1, h2, h3, ?_, ?_, sq, ?_, hterm⟩
              · rw [pathLe_cons]
                exact ⟨rfl, h4⟩
              · intro hcon
                injection hcon with _ hcon
                exact h5 hcon
              · rw [stateAt_cons G s n j q' c hgi]
                exact hsq
        · rcases hgj : n.children.get? j with _ | cj
          · rw [hgj] at hx
            cases hx
          · rw [hgj] at hx
            simp only [] at hx
            have hget2 : n'.children.get? j = some cj := by
              rw [hn, children_setChildAt, List.get?_set_ne _ _ (fun hh => hji hh.symm)]
              exact hgj
            refine ⟨x, ?_, rfl, rfl, rfl, rfl, rfl, rfl, Or.inl rfl⟩
            simp only [nodeAt, hget2]
            exact hx

/-- One simulation never empties an outcome vector: if a node's outcome
is non-empty before simStep and all returns/evaluate vectors are
non-empty, the node's outcome is still non-empty afterwards.  -/
theorem simStep_outcome_nonempty {σ : Type} (G : GameM σ) (E : EvalM σ) (O : OracleM)
    (bot : MCTSBot) (s0 : σ)
    (hret : ∀ s, G.returns s ≠ []) (hev : ∀ j s, E.evaluate j s ≠ [])
    (root : SearchNode) (t i : ℕ) (root' : SearchNode) (t' : ℕ)
    (h : simStep G E O bot s0 root t i = some (root', t'))
    (q : List ℕ) (x : SearchNode) (hx : nodeAt root q = some x) (ho : x.outcome ≠ []) :
    ∃ x', nodeAt root' q = some x' ∧ x'.outcome ≠ [] := by
  rcases hap : ApplyTreePolicy G E O bot.uct_c root s0 t with _ | ⟨p, root1, ws, t1⟩
  · rw [simStep, hap] at h
    cases h
  · rw [simStep, hap] at h
    simp only [Option.some.injEq, Prod.mk.injEq] at h
    obtain ⟨h1, h2⟩ := h
    subst h1
    obtain ⟨x1, hx1, _, _, _, _, _, ho1, _⟩ :=
      ApplyTreePolicy_frame G E O bot.uct_c p root s0 t root1 ws t1 hap q x hx
    have hrets : (if G.isTerminal ws = true then G.returns ws else E.evaluate i ws) ≠ [] := by
      split
      · exact hret ws
      · exact hev i ws
    obtain ⟨x2, hx2, _, _, _, _, honp, hoffp⟩ :=
      backupAlong_frame G.maxUtility
        (if G.isTerminal ws = true then G.returns ws else E.evaluate i ws)
        (if G.isTerminal ws = true then bot.solve else false) (G.isTerminal ws) p root1 q x1 hx1
    by_cases hq : pathLe q p
    · exact ⟨x2, hx2, (honp hq).2.2 (by rw [ho1]; exact ho) hrets⟩
    · refine ⟨x2, hx2, ?_⟩
      rw [hoffp hq, ho1]
      exact ho

/-- C7 (amended): for every node of the search tree, once its outcome
vector is non-empty it stays non-empty for the remainder of the
simulation loop, provided the game's returns vectors and the
evaluator's value vectors are never empty (the outcome's value can
still change, as C7_counterexample shows).  -/
theorem C7_amended_outcome_stays_nonempty {σ : Type} (G : GameM σ) (E : EvalM σ)
    (O : OracleM) (bot : MCTSBot) (s0 : σ)
    (hret : ∀ s, G.returns s ≠ []) (hev : ∀ j s, E.evaluate j s ≠ []) :
    ∀ (k : ℕ) (root : SearchNode) (t i : ℕ) (root' : SearchNode) (t' : ℕ),
      mctsLoop G E O bot s0 k root t i = some (root', t') →
      ∀ (q : List ℕ) (x : SearchNode), nodeAt root q = some x → x.outcome ≠ [] →
        ∃ x', nodeAt root' q = some x' ∧ x'.outcome ≠ [] := by
  intro k
  induction k with
  | zero =>
    intro root t i root' t' h q x hx ho
    simp only [mctsLoop, Option.some.injEq, Prod.mk.injEq] at h
    obtain ⟨rfl, rfl⟩ := h
    exact ⟨x, hx, ho⟩
  | succ k ih =>
    intro root t i root' t' h q x hx ho
    rw [mctsLoop] at h
    rcases hs : simStep G E O bot s0 root t i with _ | ⟨root1, t1⟩
    · rw [hs] at h
      simp only [] at h
      cases h
    · rw [hs] at h
      simp only [] at h
      by_cases hroot1 : root1.outcome ≠ []
      · rw [if_pos hroot1] at h
        simp only [Option.some.injEq, Prod.mk.injEq] at h
        obtain ⟨h1, h2⟩ := h
        subst h1
        exact simStep_outcome_nonempty G E O bot s0 hret hev root t i root1 t1 hs q x hx ho
      · rw [if_neg hroot1] at h
        obtain ⟨x1, hx1, ho1⟩ :=
          simStep_outcome_nonempty G E O bot s0 hret hev root t i root1 t1 hs q x hx ho
        exact ih root1 t1 (i + 1) root' t' h q x1 hx1 ho1

/-- Witness for C7 (amended): in the G7 run, node [0] has the non-empty
outcome [1, 0] after simulation 3, and after simulation 4 its outcome is
still non-empty (it is in fact the different vector [1, -1]).  -/
theorem C7_amended_outcome_stays_nonempty_witness :
    ∃ x', nodeAt n7root4 [0] = some x' ∧ x'.outcome ≠ [] := by
  have hret : ∀ s, G7.returns s ≠ [] := by
    intro s
    simp only [G7]
    split_ifs <;> simp
  have hev : ∀ j s, E7.evaluate j s ≠ [] := by
    intro j s
    simp [E7]
  have hloop : mctsLoop G7 E7 O7 (bot7 4) 0 1 n7root3 2 3 = some (n7root4, 2) := by
    have ho4 : n7root4.outcome = [] := rfl
    rw [show (1:ℕ) = 0 + 1 from rfl, mctsLoop, sim4 4]
    norm_num [ho4, mctsLoop]
  exact C7_amended_outcome_stays_nonempty G7 E7 O7 (bot7 4) 0 hret hev 1 n7root3 2 3
    n7root4 2 hloop [0] n7N10b rfl (by simp [n7N10b, SearchNode.outcome])

/-- Witness for C5: on a chance node (both children carry the chance
sentinel) whose two children share the non-empty outcome [1, 1], the
backup proves the node and writes that common outcome.  -/
theorem C5_chance_backup_witness :
    (backupNode 1 [0, 0] true nC5).2 = true ∧
    (backupNode 1 [0, 0] true nC5).1 = (statsBump [0, 0] nC5).setOutcome [1, 1] := by
  have h := C5_chance_backup 1 [0, 0] nC5 nC5c0 [nC5c1] rfl rfl
  have hcond : nC5c0.outcome ≠ [] ∧ ∀ c ∈ [nC5c1], c.outcome = nC5c0.outcome := by
    refine ⟨by simp [nC5c0, SearchNode.outcome], ?_⟩
    intro c hc
    rw [List.mem_singleton] at hc
    subst hc
    rfl
  refine ⟨(h.1).mpr hcond, ?_⟩
  have h2 := h.2.1 hcond
  exact h2

/-- Witness for C6: on a decision node for player 0 with one solved
child of outcome [1, 1] (value 1 = maxUtility for player 0) and one
unsolved child, the backup proves the node through the max-utility
shortcut and writes the solved child's outcome.  -/
theorem C6_decision_backup_witness :
    (backupNode 1 [0, 0] true nC6).2 = true ∧
    ∃ b ∈ nC6.children, b.outcome ≠ [] ∧
      (∀ c ∈ nC6.children, c.outcome ≠ [] →
        vecAt c.outcome nC6c0.player ≤ vecAt b.outcome nC6c0.player) ∧
      (backupNode 1 [0, 0] true nC6).1 = (statsBump [0, 0] nC6).setOutcome b.outcome := by
  have h := C6_decision_backup 1 [0, 0] nC6 nC6c0 [nC6c1] rfl
    (by simp [nC6c0, SearchNode.player, kChancePlayerId])
  have h2 : (backupNode 1 [0, 0] true nC6).2 = true := by
    rw [h.1]
    refine ⟨⟨nC6c0, ?_, by simp [nC6c0, SearchNode.outcome]⟩,
      Or.inr ⟨nC6c0, ?_, by simp [nC6c0, SearchNode.outcome], ?_, ?_⟩⟩
    · simp [nC6, SearchNode.children]
    · simp [nC6, SearchNode.children]
    · intro c hc ho
      simp only [nC6, SearchNode.children, List.mem_cons, List.mem_singleton,
        List.not_mem_nil, or_false] at hc
      rcases hc with rfl | rfl
      · exact le_refl _
      · exact absurd rfl ho
    · norm_num [nC6c0, SearchNode.outcome, SearchNode.player, vecAt]
  exact ⟨h2, h.2.1 h2⟩

theorem ApplyTreePolicy_action {σ : Type} (G : GameM σ) (E : EvalM σ) (O : OracleM) (u : ℝ)
    (p : List ℕ) (n : SearchNode) (s : σ) (t : ℕ) (n' : SearchNode) (s' : σ) (t' : ℕ)
    (h : ApplyTreePolicy G E O u n s t = some (p, n', s', t')) : n'.action = n.action := by
  obtain ⟨x', h1, ha, _⟩ := ApplyTreePolicy_frame G E O u p n s t n' s' t' h [] n rfl
  have h2 : some n' = some x' := h1
  injection h2 with h2
  rw [h2]
  exact ha

/-- The descent preserves the expansion invariant in relaxed form: the
node expanded along the way (if any) has explore_count still 1, sits
strictly above the frontier path and replays to a non-terminal state;
every other node keeps its goodNode facts.  -/
theorem ATP_midInv {σ : Type} (G : GameM σ) (E : EvalM σ) (O : OracleM) (u : ℝ) :
    ∀ (p : List ℕ) (n : SearchNode) (s : σ) (t : ℕ) (n' : SearchNode) (s' : σ) (t' : ℕ),
      ApplyTreePolicy G E O u n s t = some (p, n', s', t') →
      (∀ q x, nodeAt n q = some x → goodNode G s n q x) →
      ∀ q x', nodeAt n' q = some x' → midNode G s n' p q x' := by
  intro p
  induction p with
  | nil =>
    intro n s t n' s' t' h hinv q x' hx'
    rcases ApplyTreePolicy_cases G E O u n s t [] n' s' t' h with
      ⟨_, _, rfl, _, _⟩ | ⟨_, _, i, c, _, _, hp, _⟩ | ⟨_, _, i, t1, c, p2, c2, _, _, _, hp, _⟩
    · exact goodNode_mid G s n' [] q x' (hinv q x' hx')
    · cases hp
    · cases hp
  | cons i0 p2 ih =>
    intro n s t n' s' t' h hinv q x' hx'
    rcases ApplyTreePolicy_cases G E O u n s t (i0 :: p2) n' s' t' h with
      ⟨_, hp, _, _, _⟩ | ⟨hstop, hch, i, c, hcc, hgk, hp, hn, hs⟩ |
      ⟨hstop, hch, i, t1, c, pp2, c2, hcc, hgi, hrec, hp, hn⟩
    · cases hp
    · -- the node was expanded here; fresh children below, the root above
      injection hp with hp1 hp2
      subst hp1
      subst hp2
      subst hn
      have hterm : G.isTerminal s = false := by
        cases hterm : G.isTerminal s with
        | false => rfl
        | true => exact absurd (Or.inl hterm) hstop
      have hecnz : n.explore_count ≠ 0 := fun hz => hstop (Or.inr hz)
      have hec1 : n.explore_count = 1 := by
        rcases (hinv [] n rfl).1 hch with h1 | ⟨sq, hsq, ht⟩
        · omega
        · have h3 : some s = some sq := hsq
          injection h3 with h3
          subst h3
          rw [hterm] at ht
          cases ht
      have hkz : expandKids (O.shuffle t (E.Prior s)) (G.currentPlayer s) ≠ [] := by
        have hzz := chooseChild_children_ne G O u
          (n.setChildren (expandKids (O.shuffle t (E.Prior s)) (G.currentPlayer s))) s (t + 1)
          i0 t' hcc
        rw [children_setChildren] at hzz
        exact hzz
      cases q with
      | nil =>
        have h2 : some (n.setChildren (expandKids (O.shuffle t (E.Prior s))
            (G.currentPlayer s))) = some x' := hx'
        injection h2 with h2
        subst h2
        refine ⟨?_, ?_, ?_⟩
        · intro hc
          rw [children_setChildren] at hc
          exact absurd hc hkz
        · intro _
          refine Or.inr ⟨?_, pathLe_nil _, by simp, s, rfl, hterm⟩
          rw [explore_setChildren, hec1]
        · intro sq hsq ht
          have h3 : some s = some sq := hsq
          injection h3 with h3
          subst h3
          rw [hterm] at ht
          cases ht
      | cons j q' =>
        have hchn' : (n.setChildren (expandKids (O.shuffle t (E.Prior s))
            (G.currentPlayer s))).children =
            expandKids (O.shuffle t (E.Prior s)) (G.currentPlayer s) :=
          children_setChildren _ _
        rcases hgj : (expandKids (O.shuffle t (E.Prior s)) (G.currentPlayer s)).get? j
          with _ | cj
        · have hx2 : nodeAt (n.setChildren (expandKids (O.shuffle t (E.Prior s))
              (G.currentPlayer s))) (j :: q') = none := by
            simp only [nodeAt, hchn', hgj]
          rw [hx2] at hx'
          cases hx'
        · obtain ⟨hcj1, hcj2⟩ := expandKids_get _ _ j cj hgj
          have hget2 : (n.setChildren (expandKids (O.shuffle t (E.Prior s))
              (G.currentPlayer s))).children.get? j = some cj := by
            rw [hchn']
            exact hgj
          rw [nodeAt_cons _ _ _ _ hget2] at hx'
          cases q' with
          | nil =>
            have h2 : some cj = some x' := hx'
            injection h2 with h2
            subst h2
            refine ⟨?_, ?_, ?_⟩
            · intro _
              refine Or.inl ?_
              rw [hcj1]
              omega
            · intro hne
              exact absurd hcj2 hne
            · intro sq _ _
              exact hcj2
          | cons j2 q3 =>
            have hx2 : nodeAt cj (j2 :: q3) = none := by
              simp only [nodeAt, hcj2, List.get?_nil]
            rw [hx2] at hx'
            cases hx'
    · -- the descent recursed into child i0
      injection hp with hp1 hp3
      subst hp1
      subst hp3
      subst hn
      cases q with
      | nil =>
        have h2 : some (n.setChildAt i0 c2) = some x' := hx'
        injection h2 with h2
        subst h2
        refine ⟨?_, ?_, ?_⟩
        · intro hc
          rw [children_setChildAt] at hc
          exact absurd hc (set_ne_nil _ _ _ hch)
        · intro _
          refine Or.inl ?_
          rw [explore_setChildAt]
          exact (hinv [] n rfl).2.1 hch
        · intro sq hsq ht
          have h3 : some s = some sq := hsq
          injection h3 with h3
          subst h3
          exact absurd (Or.inl ht) hstop
      | cons j q' =>
        by_cases hji : j = i0
        · subst hji
          have hget2 : (n.setChildAt j c2).children.get? j = some c2 := by
            rw [children_setChildAt, List.get?_set_eq, hgi]
            rfl
          rw [nodeAt_cons _ _ _ _ hget2] at hx'
          have hinvc : ∀ qq x, nodeAt c qq = some x →
              goodNode G (G.applyAction s c.action) c qq x := by
            intro qq x hx
            have hg := hinv (j :: qq) x (by rw [nodeAt_cons _ _ _ _ hgi]; exact hx)
            exact goodNode_lift G s (G.applyAction s c.action) n c (j :: qq) qq x
              (stateAt_cons G s n j qq c hgi).symm hg
          have hmidc := ih c (G.applyAction s c.action) t1 c2 s' t' hrec hinvc q' x' hx'
          have hact : c2.action = c.action :=
            ApplyTreePolicy_action G E O u p2 c (G.applyAction s c.action) t1 c2 s' t' hrec
          refine midNode_lift G (G.applyAction s c.action) s c2 (n.setChildAt j c2)
            p2 (j :: p2) q' (j :: q') x' ?_ ?_ ?_ hmidc
          · rw [stateAt_cons G s (n.setChildAt j c2) j q' c2 hget2, hact]
          · intro hle
            rw [pathLe_cons]
            exact ⟨rfl, hle⟩
          · intro hne hcon
            injection hcon with _ hcon
            exact hne hcon
        · have hgj2 : (n.setChildAt i0 c2).children.get? j = n.children.get? j := by
            rw [children_setChildAt, List.get?_set_ne _ _ (fun hh => hji hh.symm)]
          rcases hgj : n.children.get? j with _ | cj
          · have hx2 : nodeAt (n.setChildAt i0 c2) (j :: q') = none := by
              simp only [nodeAt, hgj2, hgj]
            rw [hx2] at hx'
            cases hx'
          · have hget2 : (n.setChildAt i0 c2).children.get? j = some cj := by
              rw [hgj2, hgj]
            rw [nodeAt_cons _ _ _ _ hget2] at hx'
            have hg := hinv (j :: q') x' (by rw [nodeAt_cons _ _ _ _ hgj]; exact hx')
            have hst : stateAt G s (n.setChildAt i0 c2) (j :: q') =
                stateAt G s n (j :: q') := by
              rw [stateAt_cons G s (n.setChildAt i0 c2) j q' cj hget2,
                stateAt_cons G s n j q' cj hgj]
            exact goodNode_mid G s _ (i0 :: p2) (j :: q') x'
              (goodNode_lift G s s n (n.setChildAt i0 c2) (j :: q') (j :: q') x' hst hg)

/-- The descent's frontier: the returned working state is the replay of
the returned path, and the frontier node either sits at a terminal state
or is still unvisited.  -/
theorem ApplyTreePolicy_frontier {σ : Type} (G : GameM σ) (E : EvalM σ) (O : OracleM) (u : ℝ) :
    ∀ (p : List ℕ) (n : SearchNode) (s : σ) (t : ℕ) (n' : SearchNode) (s' : σ) (t' : ℕ),
      ApplyTreePolicy G E O u n s t = some (p, n', s', t') →
      stateAt G s n' p = some s' ∧
      ∃ f, nodeAt n' p = some f ∧ (G.isTerminal s' = true ∨ f.explore_count = 0) := by
  intro p
  induction p with
  | nil =>
    intro n s t n' s' t' h
    rcases ApplyTreePolicy_cases G E O u n s t [] n' s' t' h with
      ⟨hstop, _, rfl, rfl, _⟩ | ⟨_, _, i, c, _, _, hp, _⟩ | ⟨_, _, i, t1, c, p2, c2, _, _, _, hp, _⟩
    · exact ⟨rfl, n', rfl, hstop⟩
    · cases hp
    · cases hp
  | cons i0 p2 ih =>
    intro n s t n' s' t' h
    rcases ApplyTreePolicy_cases G E O u n s t (i0 :: p2) n' s' t' h with
      ⟨_, hp, _, _, _⟩ | ⟨hstop, hch, i, c, hcc, hgk, hp, hn, hs⟩ |
      ⟨hstop, hch, i, t1, c, pp2, c2, hcc, hgi, hrec, hp, hn⟩
    · cases hp
    · injection hp with hp1 hp2
      subst hp1
      subst hp2
      subst hn
      subst hs
      have hget : (n.setChildren (expandKids (O.shuffle t (E.Prior s))
          (G.currentPlayer s))).children.get? i0 = some c := by
        rw [children_setChildren]
        exact hgk
      constructor
      · rw [stateAt_cons G s _ i0 [] c hget]
        rfl
      · refine ⟨c, ?_, Or.inr (expandKids_get _ _ i0 c hgk).1⟩
        rw [nodeAt_cons _ _ _ _ hget]
        rfl
    · injection hp with hp1 hp3
      subst hp1
      subst hp3
      subst hn
      obtain ⟨hst, f, hfnode, hfcond⟩ := ih c (G.applyAction s c.action) t1 c2 s' t' hrec
      have hact : c2.action = c.action :=
        ApplyTreePolicy_action G E O u p2 c (G.applyAction s c.action) t1 c2 s' t' hrec
      have hget2 : (n.setChildAt i0 c2).children.get? i0 = some c2 := by
        rw [children_setChildAt, List.get?_set_eq, hgi]
        rfl
      constructor
      · rw [stateAt_cons G s _ i0 p2 c2 hget2, hact]
        exact hst
      · refine ⟨f, ?_, hfcond⟩
        rw [nodeAt_cons _ _ _ _ hget2]
        exact hfnode

/-- The backup restores the expansion invariant from its relaxed mid
form, given that the frontier of the walked path is terminal or
unvisited.  -/
theorem backupAlong_inv {σ : Type} (G : GameM σ) (maxU : ℝ) (rets : List ℝ)
    (sv0 setF : Bool) :
    ∀ (p : List ℕ) (n : SearchNode) (s : σ),
      (∀ q x, nodeAt n q = some x → midNode G s n p q x) →
      (∃ f sf, nodeAt n p = some f ∧ stateAt G s n p = some sf ∧
        (G.isTerminal sf = true ∨ f.explore_count = 0)) →
      ∀ q x', nodeAt (backupAlong maxU rets sv0 setF n p).1 q = some x' →
        goodNode G s (backupAlong maxU rets sv0 setF n p).1 q x' := by
  intro p
  induction p with
  | nil =>
    intro n s hmid hfr q x' hx'
    obtain ⟨f, sf, hf, hsf, hcond⟩ := hfr
    have hfn : f = n := by
      have h2 : some n = some f := hf
      injection h2 with h2
      exact h2.symm
    have hsfs : sf = s := by
      have h2 : some s = some sf := hsf
      injection h2 with h2
      exact h2.symm
    rw [hfn, hsfs] at hcond
    have hb : (backupAlong maxU rets sv0 setF n []).1 =
        (backupNode maxU rets sv0 (if setF = true then n.setOutcome rets else n)).1 := rfl
    have hm : (if setF = true then n.setOutcome rets else n).children = n.children ∧
        (if setF = true then n.setOutcome rets else n).explore_count = n.explore_count := by
      split
      · exact ⟨children_setOutcome _ _, explore_setOutcome _ _⟩
      · exact ⟨rfl, rfl⟩
    have hfld := backupNode_fields maxU rets sv0 (if setF = true then n.setOutcome rets else n)
    have hch' : (backupAlong maxU rets sv0 setF n []).1.children = n.children := by
      rw [hb, hfld.1, hm.1]
    have hec' : (backupAlong maxU rets sv0 setF n []).1.explore_count =
        n.explore_count + 1 := by
      rw [hb, hfld.2.1, hm.2]
    cases q with
    | nil =>
      have h2 : some (backupAlong maxU rets sv0 setF n []).1 = some x' := hx'
      injection h2 with h2
      subst h2
      refine ⟨?_, ?_, ?_⟩
      · intro _
        rcases hcond with ht | h0
        · exact Or.inr ⟨s, rfl, ht⟩
        · refine Or.inl ?_
          rw [hec', h0]
      · intro hc
        rw [hch'] at hc
        rcases (hmid [] n rfl).2.1 hc with h2le | ⟨_, _, hne, _⟩
        · rw [hec']
          omega
        · exact absurd rfl hne
      · intro sq hsq ht
        have h3 : some s = some sq := hsq
        injection h3 with h3
        subst h3
        rw [hch']
        exact (hmid [] n rfl).2.2 s rfl ht
    | cons j q' =>
      rcases hgj : n.children.get? j with _ | cj
      · have hx2 : nodeAt (backupAlong maxU rets sv0 setF n []).1 (j :: q') = none := by
          simp only [nodeAt, hch', hgj]
        rw [hx2] at hx'
        cases hx'
      · have hget2 : (backupAlong maxU rets sv0 setF n []).1.children.get? j = some cj := by
          rw [hch']
          exact hgj
        rw [nodeAt_cons _ _ _ _ hget2] at hx'
        have hg := hmid (j :: q') x' (by rw [nodeAt_cons _ _ _ _ hgj]; exact hx')
        have hst : stateAt G s (backupAlong maxU rets sv0 setF n []).1 (j :: q') =
            stateAt G s n (j :: q') := by
          rw [stateAt_cons G s _ j q' cj hget2, stateAt_cons G s n j q' cj hgj]
        refine ⟨?_, ?_, ?_⟩
        · intro hc
          rcases hg.1 hc with h1 | ⟨sq, hsq, ht⟩
          · exact Or.inl h1
          · exact Or.inr ⟨sq, by rw [hst]; exact hsq, ht⟩
        · intro hc
          rcases hg.2.1 hc with h1 | ⟨_, hle, _, _⟩
          · exact h1
          · rw [pathLe_iff_nil] at hle
            exact absurd hle (List.cons_ne_nil j q')
        · intro sq hsq ht
          exact hg.2.2 sq (by rw [← hst]; exact hsq) ht
  | cons i0 p' ih =>
    intro n s hmid hfr q x' hx'
    obtain ⟨f, sf, hf, hsf, hcond⟩ := hfr
    rcases hgi : n.children.get? i0 with _ | c
    · have hf2 : nodeAt n (i0 :: p') = none := by
        simp only [nodeAt, hgi]
      rw [hf2] at hf
      cases hf
    · have hb : (backupAlong maxU rets sv0 setF n (i0 :: p')).1 =
          (backupNode maxU rets (backupAlong maxU rets sv0 setF c p').2
            (n.setChildAt i0 (backupAlong maxU rets sv0 setF c p').1)).1 := by
        simp only [backupAlong, hgi]
      have hfld := backupNode_fields maxU rets (backupAlong maxU rets sv0 setF c p').2
        (n.setChildAt i0 (backupAlong maxU rets sv0 setF c p').1)
      have hch' : (backupAlong maxU rets sv0 setF n (i0 :: p')).1.children =
          n.children.set i0 (backupAlong maxU rets sv0 setF c p').1 := by
        rw [hb, hfld.1, children_setChildAt]
      have hec' : (backupAlong maxU rets sv0 setF n (i0 :: p')).1.explore_count =
          n.explore_count + 1 := by
        rw [hb, hfld.2.1, explore_setChildAt]
      have hchne : n.children ≠ [] := by
        intro hcon
        rw [hcon] at hgi
        simp at hgi
      have hmidc : ∀ qq x, nodeAt c qq = some x →
          midNode G (G.applyAction s c.action) c p' qq x := by
        intro qq x hx
        have hg := hmid (i0 :: qq) x (by rw [nodeAt_cons _ _ _ _ hgi]; exact hx)
        refine midNode_lift G s (G.applyAction s c.action) n c (i0 :: p') p'
          (i0 :: qq) qq x ?_ ?_ ?_ hg
        · exact (stateAt_cons G s n i0 qq c hgi).symm
        · intro hle
          rw [pathLe_cons] at hle
          exact hle.2
        · intro hne hcon
          exact hne (by rw [hcon])
      have hfrc : ∃ f2 sf2, nodeAt c p' = some f2 ∧
          stateAt G (G.applyAction s c.action) c p' = some sf2 ∧
          (G.isTerminal sf2 = true ∨ f2.explore_count = 0) := by
        refine ⟨f, sf, ?_, ?_, hcond⟩
        · rw [← nodeAt_cons _ _ _ _ hgi]
          exact hf
        · rw [← stateAt_cons G s n i0 p' c hgi]
          exact hsf
      have hihc := ih c (G.applyAction s c.action) hmidc hfrc
      cases q with
      | nil =>
        have h2 : some (backupAlong maxU rets sv0 setF n (i0 :: p')).1 = some x' := hx'
        injection h2 with h2
        subst h2
        refine ⟨?_, ?_, ?_⟩
        · intro hc
          rw [hch'] at hc
          exact absurd hc (set_ne_nil _ _ _ hchne)
        · intro _
          rw [hec']
          rcases (hmid [] n rfl).2.1 hchne with h2le | ⟨h1, _, _, _⟩
          · omega
          · omega
        · intro sq hsq ht
          have h3 : some s = some sq := hsq
          injection h3 with h3
          subst h3
          exact absurd ((hmid [] n rfl).2.2 s rfl ht) hchne
      | cons j q' =>
        by_cases hji : j = i0
        · subst hji
          have hget2 : (backupAlong maxU rets sv0 setF n (j :: p')).1.children.get? j =
              some (backupAlong maxU rets sv0 setF c p').1 := by
            rw [hch', List.get?_set_eq, hgi]
            rfl
          rw [nodeAt_cons _ _ _ _ hget2] at hx'
          have hg := hihc q' x' hx'
          have hact : (backupAlong maxU rets sv0 setF c p').1.action = c.action :=
            backupAlong_action maxU rets sv0 setF p' c
          have hst : stateAt G s (backupAlong maxU rets sv0 setF n (j :: p')).1 (j :: q') =
              stateAt G (G.applyAction s c.action)
                (backupAlong maxU rets sv0 setF c p').1 q' := by
            rw [stateAt_cons G s _ j q' _ hget2, hact]
          exact goodNode_lift G (G.applyAction s c.action) s
            (backupAlong maxU rets sv0 setF c p').1
            (backupAlong maxU rets sv0 setF n (j :: p')).1 q' (j :: q') x' hst hg
        · have hgj2 : (backupAlong maxU rets sv0 setF n (i0 :: p')).1.children.get? j =
              n.children.get? j := by
            rw [hch', List.get?_set_ne _ _ (fun hh => hji hh.symm)]
          rcases hgj : n.children.get? j with _ | cj
          · have hx2 : nodeAt (backupAlong maxU rets sv0 setF n (i0 :: p')).1
                (j :: q') = none := by
              simp only [nodeAt, hgj2, hgj]
            rw [hx2] at hx'
            cases hx'
          · have hget2 : (backupAlong maxU rets sv0 setF n (i0 :: p')).1.children.get? j =
                some cj := by
              rw [hgj2, hgj]
            rw [nodeAt_cons _ _ _ _ hget2] at hx'
            have hg := hmid (j :: q') x' (by rw [nodeAt_cons _ _ _ _ hgj]; exact hx')
            have hst : stateAt G s (backupAlong maxU rets sv0 setF n (i0 :: p')).1
                (j :: q') = stateAt G s n (j :: q') := by
              rw [stateAt_cons G s _ j q' cj hget2, stateAt_cons G s n j q' cj hgj]
            refine ⟨?_, ?_, ?_⟩
            · intro hc
              rcases hg.1 hc with h1 | ⟨sq, hsq, ht⟩
              · exact Or.inl h1
              · exact Or.inr ⟨sq, by rw [hst]; exact hsq, ht⟩
            · intro hc
              rcases hg.2.1 hc with h1 | ⟨_, hle, _, _⟩
              · exact h1
              · rw [pathLe_cons] at hle
                exact absurd hle.1 hji
            · intro sq hsq ht
              exact hg.2.2 sq (by rw [← hst]; exact hsq) ht

/-- Claim C4 (amended): one simulation preserves the expansion
invariant (unexpanded nodes have explore_count at most 1 or replay to a
terminal state, expanded nodes have explore_count at least 2, and nodes
replaying to a terminal state are never expanded), expanded nodes keep
their children count (a node is expanded at most once), and when a
node's children turn non-empty during the simulation its explore_count
transitions exactly from 1 to 2 and its replayed state is
non-terminal.  -/
theorem C4_amended_expansion_timing {σ : Type} (G : GameM σ) (E : EvalM σ) (O : OracleM)
    (bot : MCTSBot) (s0 : σ) (root : SearchNode) (t i : ℕ) (root' : SearchNode) (t' : ℕ)
    (h : simStep G E O bot s0 root t i = some (root', t'))
    (hinv : ExpansionInv G s0 root) :
    ExpansionInv G s0 root' ∧
    ∀ q x x', nodeAt root q = some x → nodeAt root' q = some x' →
      (x.children ≠ [] → x'.children.length = x.children.length) ∧
      (x.children = [] → x'.children ≠ [] →
        x.explore_count = 1 ∧ x'.explore_count = 2 ∧
        ∃ sq, stateAt G s0 root q = some sq ∧ G.isTerminal sq = false) := by
  rcases hap : ApplyTreePolicy G E O bot.uct_c root s0 t with _ | ⟨p, root1, ws, t1⟩
  · rw [simStep, hap] at h
    cases h
  · rw [simStep, hap] at h
    simp only [Option.some.injEq, Prod.mk.injEq] at h
    obtain ⟨h1, h2⟩ := h
    subst h1
    have hinv0 : ∀ q x, nodeAt root q = some x → goodNode G s0 root q x := hinv
    have hmid := ATP_midInv G E O bot.uct_c p root s0 t root1 ws t1 hap hinv0
    obtain ⟨hstf, f, hfnode, hfcond⟩ :=
      ApplyTreePolicy_frontier G E O bot.uct_c p root s0 t root1 ws t1 hap
    constructor
    · intro q x' hx'
      exact backupAlong_inv G G.maxUtility
        (if G.isTerminal ws = true then G.returns ws else E.evaluate i ws)
        (if G.isTerminal ws = true then bot.solve else false) (G.isTerminal ws)
        p root1 s0 hmid ⟨f, ws, hfnode, hstf, hfcond⟩ q x' hx'
    · intro q x x' hx hx'
      obtain ⟨x1, hx1, ha1, hp1, hpr1, he1, hr1, ho1, hdisj⟩ :=
        ApplyTreePolicy_frame G E O bot.uct_c p root s0 t root1 ws t1 hap q x hx
      obtain ⟨x2, hx2, _, _, _, hlen2, honp, hoffp⟩ :=
        backupAlong_frame G.maxUtility
          (if G.isTerminal ws = true then G.returns ws else E.evaluate i ws)
          (if G.isTerminal ws = true then bot.solve else false) (G.isTerminal ws)
          p root1 q x1 hx1
      have hxx2 : x2 = x' := by
        rw [hx2] at hx'
        injection hx'
      subst hxx2
      constructor
      · intro hcne
        rcases hdisj with hlen1 | ⟨hemp, _, _, _, _, _⟩
        · rw [hlen2, hlen1]
        · exact absurd hemp hcne
      · intro hcemp hcne
        rcases hdisj with hlen1 | ⟨_, hne1, hle1, hple, hnep, sq, hsq, hterm⟩
        · exfalso
          apply hcne
          have hlen0 : x2.children.length = 0 := by
            simp [hlen2, hlen1, hcemp]
          exact List.length_eq_zero.mp hlen0
        · have hgood : goodNode G s0 root q x := hinv q x hx
          have hec1 : x.explore_count = 1 := by
            rcases hgood.1 hcemp with hle | ⟨sq2, hsq2, ht2⟩
            · omega
            · rw [hsq] at hsq2
              injection hsq2 with hsq2
              rw [← hsq2, hterm] at ht2
              cases ht2
          refine ⟨hec1, ?_, sq, hsq, hterm⟩
          rw [(honp hple).1, he1, hec1]

/-- Witness for C4 (amended): in the G7 run the root is unexpanded with
explore_count 1 after simulation 1, and simulation 2 expands it while
its explore_count transitions from 1 to 2, the root state 0 being
non-terminal.  -/
theorem C4_amended_expansion_timing_witness :
    n7root1.explore_count = 1 ∧ n7root2.explore_count = 2 ∧
      ∃ sq, stateAt G7 0 n7root1 [] = some sq ∧ G7.isTerminal sq = false := by
  have hinv1 : ExpansionInv G7 0 n7root1 := by
    intro q x hx
    cases q with
    | nil =>
      have h2 : some n7root1 = some x := hx
      injection h2 with h2
      subst h2
      refine ⟨fun _ => Or.inl (le_refl 1), ?_, fun sq _ _ => rfl⟩
      intro hc
      exact absurd rfl hc
    | cons j q' =>
      have hx2 : nodeAt n7root1 (j :: q') = none := rfl
      rw [hx2] at hx
      cases hx
  have h4 := C4_amended_expansion_timing G7 E7 O7 (bot7 2) 0 n7root1 0 1 n7root2 1
    (sim2 2) hinv1
  exact (h4.2 [] n7root1 n7root2 rfl rfl).2 rfl
    (by simp [n7root2, SearchNode.children])

end Mcts
